import Mathlib

/-! Luigi: rotation of a GitHub Actions runner registration token.

A shallow embedding of `function/luigi.go`.  The handler `Luigi` talks to two
external services (Google Secret Manager and the GitHub REST API).  Every call
that leaves the process is answered by an environment `Env`; the answer may
depend on the calls issued so far, which makes `Env` the most general
deterministic environment.  A run yields the ordered list of calls it issued
(`trace`) and the way it ended (`outcome`).

`log.Fatalf` prints and then exits the process with `os.Exit(1)`: nothing after
it runs, deferred calls included.  It is embedded as the outcome `fatal`.  A
run-time panic unwinds the stack, so the deferred calls do run; it is embedded
as the outcome `panicked`.  `log.Printf` only writes to the log and is left out.
-/

namespace luigi

/-! ## Go strings and `fmt.Sprintf` -/

/-- A Go `string`: an immutable sequence of bytes, not necessarily valid UTF-8. -/
abbrev GoString := List UInt8

/-- The bytes of a Go string literal (Go source text is UTF-8). -/
def lit (s : String) : GoString := s.toUTF8.data.toList

/-- Go conversion `string(b)` of a byte slice `b`: the same bytes. -/
def string (b : List UInt8) : GoString := b

/-- Go conversion `[]byte(s)` of a string `s`: the same bytes. -/
def bytes (s : GoString) : List UInt8 := s

/-- The formatting loop of `fmt.Sprintf`, restricted to what the source uses: the
verb `%s` applied to string operands.  The flag says whether the byte before was
`%` (byte 37).  `%s` (37, 115) writes the next operand verbatim; a missing
operand prints `%!s(MISSING)` and a trailing `%` prints `%!(NOVERB)` as in Go.
Other verbs do not occur in the source and are copied through. -/
def doPrintf : List UInt8 → Bool → List GoString → GoString
  | [], false, _ => []
  | [], true, _ => lit "%!(NOVERB)"
  | c :: fmt, false, args =>
      if c = 37 then doPrintf fmt true args else c :: doPrintf fmt false args
  | c :: fmt, true, args =>
      if c = 115 then
        match args with
        | a :: rest => a ++ doPrintf fmt false rest
        | [] => lit "%!s(MISSING)" ++ doPrintf fmt false []
      else 37 :: c :: doPrintf fmt false args

/-- Go `fmt.Sprintf(format, args...)` for string operands. -/
def Sprintf (format : GoString) (args : List GoString) : GoString :=
  doPrintf format false args

/-! ## Data model -/

/-- Go `error` values, identified by their message. -/
structure GoError where
  msg : String
  deriving DecidableEq, Repr

/-- What a Go function with an `error` result gives: a value, or an error. -/
inductive Result (α : Type) where
  | ok (val : α)
  | error (err : GoError)
  deriving DecidableEq, Repr

/-- PubSubMessage is the payload of a Pub/Sub event. -/
structure PubSubMessage where
  Data : List UInt8
  deriving DecidableEq, Repr

/-- Source constant `ghTokenSecretSuffix`. -/
def ghTokenSecretSuffix : GoString := lit "admin-token"

/-- Source constant `regTokenSecretSuffix`. -/
def regTokenSecretSuffix : GoString := lit "registration-token"

/-- Lifecycle state of a secret version (`secretmanagerpb.SecretVersion_State`).
The spec calls an `ENABLED` version "ACTIVE". -/
inductive SecretVersion_State where
  | STATE_UNSPECIFIED
  | ENABLED
  | DISABLED
  | DESTROYED
  deriving DecidableEq, Repr

/-- A `secretmanagerpb.SecretVersion`, with the two fields the source reads. -/
structure SecretVersion where
  Name : GoString
  State : SecretVersion_State
  deriving DecidableEq, Repr

/-- Payload of a secret version (`secretmanagerpb.SecretPayload`). -/
structure SecretPayload where
  Data : List UInt8
  deriving DecidableEq, Repr

/-- Request of `AccessSecretVersion`. -/
structure AccessSecretVersionRequest where
  Name : GoString
  deriving DecidableEq, Repr

/-- Response of `AccessSecretVersion`.  `Payload` is a pointer in Go: `none` is
the nil pointer. -/
structure AccessSecretVersionResponse where
  Payload : Option SecretPayload
  deriving DecidableEq, Repr

/-- Request of `ListSecretVersions`. -/
structure ListSecretVersionsRequest where
  Parent : GoString
  deriving DecidableEq, Repr

/-- Request of `DestroySecretVersion`. -/
structure DestroySecretVersionRequest where
  Name : GoString
  deriving DecidableEq, Repr

/-- Request of `AddSecretVersion`. -/
structure AddSecretVersionRequest where
  Parent : GoString
  Payload : SecretPayload
  deriving DecidableEq, Repr

/-- An `http.Header`: keys with their value lists. -/
abbrev Header := List (GoString × List GoString)

/-- Go `Header.Set(key, value)`: the key is bound to the single value, replacing
what was bound before.  (Go canonicalises the key first; the two keys the source
sets are already canonical.) -/
def Header.Set (h : Header) (key value : GoString) : Header :=
  h.filter (fun kv => kv.1 != key) ++ [(key, [value])]

/-- Go `Header.Get(key)`: the first value bound to the key, or the empty string. -/
def Header.Get (h : Header) (key : GoString) : GoString :=
  match h.find? (fun kv => kv.1 == key) with
  | some (_, v :: _) => v
  | _ => []

/-- A `url.URL`, with the fields that parsing a text with a scheme and a plain
authority can set (`Opaque`, `User` and `OmitHost` stay empty). -/
structure URL where
  Scheme : GoString
  Host : GoString
  Path : GoString
  RawPath : GoString
  ForceQuery : Bool
  RawQuery : GoString
  Fragment : GoString
  RawFragment : GoString
  deriving DecidableEq, Repr

/-- An `http.Request`, with the fields the source sets.  The URL is the parsed
one (`*url.URL`). -/
structure Request where
  Method : GoString
  URL : URL
  Header : Header
  Body : Option (List UInt8)
  deriving DecidableEq, Repr

/-- A call issued by the handler: the setup and the release of the Secret
Manager client, the four Secret Manager requests, and the HTTP request.  The
iterator method `it.Next()` and `io.ReadAll` consume the answer of a call that
was already issued and are not calls of their own. -/
inductive Call where
  | NewClient
  | AccessSecretVersion (req : AccessSecretVersionRequest)
  | Do (req : Request)
  | ListSecretVersions (req : ListSecretVersionsRequest)
  | DestroySecretVersion (req : DestroySecretVersionRequest)
  | AddSecretVersion (req : AddSecretVersionRequest)
  | Close
  deriving DecidableEq, Repr

/-- The calls issued so far, oldest first. -/
abbrev Trace := List Call

/-- One result of the iterator method `it.Next()`: a version or an error.
`iterator.Done` is the end of the list. -/
inductive NextResult where
  | version (resp : SecretVersion)
  | failure (err : GoError)
  deriving DecidableEq, Repr

/-- What `io.ReadAll(resp.Body)` gives. -/
inductive ReadResult where
  | data (body : List UInt8)
  | failure (err : GoError)
  deriving DecidableEq, Repr

/-- An `http.Response`: its status code and what reading its body gives. -/
structure Response where
  StatusCode : Nat
  Body : ReadResult
  deriving DecidableEq, Repr

/-- The environment of one invocation.  Every answer may depend on the trace of
calls issued before the call it answers.
* `projectId` is the package variable read from `os.Getenv("project_id")`;
* `NewRequestURL method url` is what `http.NewRequest` makes of the method and
  the URL text: an error (invalid method, text that `url.Parse` rejects), or the
  parsed URL that the request carries;
* `ListSecretVersions` gives the results of the successive `it.Next()` calls
  up to `iterator.Done`, so the enumeration is finite. -/
structure Env where
  projectId : GoString
  NewClient : Option GoError
  AccessSecretVersion : Trace → AccessSecretVersionRequest →
    Result AccessSecretVersionResponse
  NewRequestURL : GoString → GoString → Result URL
  Do : Trace → Request → Result Response
  ListSecretVersions : Trace → ListSecretVersionsRequest → List NextResult
  DestroySecretVersion : Trace → DestroySecretVersionRequest → Option GoError
  AddSecretVersion : Trace → AddSecretVersionRequest → Result SecretVersion

/-- The `log.Fatalf` sites of the source, with the error they print. -/
inductive Fatal where
  | emptyOrgName
  | setupClient (err : GoError)
  | accessSecretVersion (err : GoError)
  | createRequest (err : GoError)
  | requestRegistrationToken (err : GoError)
  | readBody (err : GoError)
  | listSecretVersions (err : GoError)
  | destroySecretVersion (err : GoError)
  | addSecretVersion (err : GoError)
  deriving DecidableEq, Repr

/-- How an invocation ends: `Luigi` returns an `error` value (`none` is `nil`),
the process is terminated by `log.Fatalf`, or a nil pointer is dereferenced and
the goroutine panics. -/
inductive Outcome where
  | returned (err : Option GoError)
  | fatal (site : Fatal)
  | panicked
  deriving DecidableEq, Repr

/-- Result of a helper function of the source: the trace after it, and the value
it returned, the `log.Fatalf` it died at, or a panic. -/
inductive Step (α : Type) where
  | ok (trace : Trace) (val : α)
  | fatal (trace : Trace) (site : Fatal)
  | panic (trace : Trace)
  deriving DecidableEq, Repr

/-- A run of `Luigi`. -/
structure Run where
  trace : Trace
  outcome : Outcome
  deriving DecidableEq, Repr

/-- The trace a helper function leaves behind. -/
def Step.trace {α : Type} : Step α → Trace
  | .ok t _ => t
  | .fatal t _ => t
  | .panic t => t

/-! ## The program -/

/-- The request built by `fetchGHAccessToken` (source lines 59-61). -/
def accessRequest (projectId ghOrgName : GoString) : AccessSecretVersionRequest :=
  { Name := Sprintf (lit "projects/%s/secrets/%s-%s/versions/latest")
      [projectId, ghOrgName, ghTokenSecretSuffix] }

/-- Source function `fetchGHAccessToken`.  In `result.Payload.Data` the field
`Payload` is a pointer, and dereferencing the nil pointer panics. -/
def fetchGHAccessToken (env : Env) (ghOrgName : GoString) (t : Trace) : Step GoString :=
  let accessRequest := accessRequest env.projectId ghOrgName
  match env.AccessSecretVersion t accessRequest with
  | .error err => .fatal (t ++ [.AccessSecretVersion accessRequest]) (.accessSecretVersion err)
  | .ok result =>
    match result.Payload with
    | none => .panic (t ++ [.AccessSecretVersion accessRequest])
    | some payload => .ok (t ++ [.AccessSecretVersion accessRequest]) (string payload.Data)

/-- Go `http.NewRequest(method, url, body)`: an error, or a request with that
method (`GET` for the empty one), the parsed URL, that body and an empty
header. -/
def NewRequest (env : Env) (method url : GoString) (body : Option (List UInt8)) :
    Result Request :=
  match env.NewRequestURL method url with
  | .error err => .error err
  | .ok u =>
    .ok { Method := if method = lit "" then lit "GET" else method, URL := u, Header := [],
          Body := body }

/-- The request built by `requestRegistrationToken` (source lines 76-81). -/
def registrationRequest (env : Env) (token ghOrgName : GoString) : Result Request :=
  match NewRequest env (lit "POST")
      (Sprintf (lit "https://api.github.com/orgs/%s/actions/runners/registration-token")
        [ghOrgName]) none with
  | .error err => .error err
  | .ok req =>
    let req := { req with
      Header := req.Header.Set (lit "Authorization") (Sprintf (lit "token %s") [token]) }
    let req := { req with
      Header := req.Header.Set (lit "Accept") (lit "application/vnd.github.v3+json") }
    .ok req

/-- Source function `requestRegistrationToken`.  The status code of the response
is not looked at. -/
def requestRegistrationToken (env : Env) (token ghOrgName : GoString) (t : Trace) :
    Step GoString :=
  match registrationRequest env token ghOrgName with
  | .error err => .fatal t (.createRequest err)
  | .ok req =>
    match env.Do t req with
    | .error err => .fatal (t ++ [.Do req]) (.requestRegistrationToken err)
    | .ok resp =>
      match resp.Body with
      | .failure err => .fatal (t ++ [.Do req]) (.readBody err)
      | .data body => .ok (t ++ [.Do req]) (string body)

/-- The request built by `saveRegistrationToken` (source lines 101-106). -/
def addRequest (projectId ghOrgName token : GoString) : AddSecretVersionRequest :=
  { Parent := Sprintf (lit "projects/%s/secrets/%s-%s")
      [projectId, ghOrgName, regTokenSecretSuffix],
    Payload := { Data := bytes token } }

/-- Source function `saveRegistrationToken`. -/
def saveRegistrationToken (env : Env) (ghOrgName token : GoString) (t : Trace) : Step Unit :=
  let req := addRequest env.projectId ghOrgName token
  match env.AddSecretVersion t req with
  | .error err => .fatal (t ++ [.AddSecretVersion req]) (.addSecretVersion err)
  | .ok _ => .ok (t ++ [.AddSecretVersion req]) ()

/-- The request built by `destroyOlderVersions` (source lines 118-120). -/
def listRequest (projectId ghOrgName : GoString) : ListSecretVersionsRequest :=
  { Parent := Sprintf (lit "projects/%s/secrets/%s-%s")
      [projectId, ghOrgName, regTokenSecretSuffix] }

/-- State of the loop of `destroyOlderVersions` when it stops: the trace, the
part of the enumeration that was never pulled from the iterator, and the
`log.Fatalf` site if the loop died (`none`: it left through `break`). -/
structure LoopEnd where
  trace : Trace
  rest : List NextResult
  died : Option Fatal
  deriving DecidableEq, Repr

/-- The `for` loop of `destroyOlderVersions` (source lines 124-148), run on the
results the iterator still has to give. -/
def destroyLoop (env : Env) : List NextResult → Trace → LoopEnd
  | [], t => { trace := t, rest := [], died := none }
  | .failure err :: rest, t =>
      { trace := t, rest := rest, died := some (.listSecretVersions err) }
  | .version resp :: rest, t =>
      if resp.State ≠ .DESTROYED then
        let req : DestroySecretVersionRequest := { Name := resp.Name }
        match env.DestroySecretVersion t req with
        | some err =>
            { trace := t ++ [.DestroySecretVersion req], rest := rest,
              died := some (.destroySecretVersion err) }
        | none => destroyLoop env rest (t ++ [.DestroySecretVersion req])
      else destroyLoop env rest t

/-- Source function `destroyOlderVersions`. -/
def destroyOlderVersions (env : Env) (ghOrgName : GoString) (t : Trace) : Step Unit :=
  let req := listRequest env.projectId ghOrgName
  let it := env.ListSecretVersions t req
  let e := destroyLoop env it (t ++ [.ListSecretVersions req])
  match e.died with
  | some site => .fatal e.trace site
  | none => .ok e.trace ()

/-- Source function `Luigi`.  The deferred `client.Close()` runs when the
function returns and when a panic unwinds it, and not when `log.Fatalf` exits
the process. -/
def Luigi (env : Env) (m : PubSubMessage) : Run :=
  let ghOrgName := string m.Data
  if ghOrgName = lit "" then { trace := [], outcome := .fatal .emptyOrgName } else
  match env.NewClient with
  | some err => { trace := [.NewClient], outcome := .fatal (.setupClient err) }
  | none =>
  match fetchGHAccessToken env ghOrgName [.NewClient] with
  | .fatal t site => { trace := t, outcome := .fatal site }
  | .panic t => { trace := t ++ [.Close], outcome := .panicked }
  | .ok t ghCredsSecret =>
  match requestRegistrationToken env ghCredsSecret ghOrgName t with
  | .fatal t site => { trace := t, outcome := .fatal site }
  | .panic t => { trace := t ++ [.Close], outcome := .panicked }
  | .ok t registrationToken =>
  match destroyOlderVersions env ghOrgName t with
  | .fatal t site => { trace := t, outcome := .fatal site }
  | .panic t => { trace := t ++ [.Close], outcome := .panicked }
  | .ok t _ =>
  match saveRegistrationToken env ghOrgName registrationToken t with
  | .fatal t site => { trace := t, outcome := .fatal site }
  | .panic t => { trace := t ++ [.Close], outcome := .panicked }
  | .ok t _ => { trace := t ++ [.Close], outcome := .returned none }

/-! ## Vocabulary of the statements -/

/-- The destroy calls the loop owes to a list of enumerated versions: one per
version whose state is not `DESTROYED`, in enumeration order. -/
def destroyCalls (vs : List SecretVersion) : Trace :=
  (vs.filter (fun v => v.State ≠ .DESTROYED)).map
    (fun v => Call.DestroySecretVersion { Name := v.Name })

/-- Whether a call is a `DestroySecretVersion` call. -/
def Call.isDestroy : Call → Bool
  | .DestroySecretVersion _ => true
  | _ => false

/-- Whether a call is an `AddSecretVersion` call. -/
def Call.isAdd : Call → Bool
  | .AddSecretVersion _ => true
  | _ => false

/-- Whether a call is a `ListSecretVersions` call. -/
def Call.isList : Call → Bool
  | .ListSecretVersions _ => true
  | _ => false

/-- Whether a call is an HTTP request sent with `http.DefaultClient.Do`. -/
def Call.isDo : Call → Bool
  | .Do _ => true
  | _ => false

/-- Whether a call is a request to one of the two external services, as opposed
to the setup (`NewClient`) and the release (`Close`) of the local client. -/
def Call.isRemote : Call → Bool
  | .NewClient => false
  | .Close => false
  | _ => true

/-- The requests to the external services in a trace, in order. -/
def remoteCalls (t : Trace) : Trace := t.filter Call.isRemote

/-- Every destroy call that the loop issues for the enumerated versions `vs`,
when it starts from the trace `t`, succeeds: the call for the `j`-th version is
answered after the destroy calls for the versions before it. -/
def DestroysSucceed (env : Env) (t : Trace) (vs : List SecretVersion) : Prop :=
  ∀ (j : Nat) (hj : j < vs.length), vs[j].State ≠ .DESTROYED →
    env.DestroySecretVersion (t ++ destroyCalls (vs.take j)) { Name := vs[j].Name } = none

/-- The documented address of the latest version of the admin-token secret. -/
def adminTokenAddress (P O : GoString) : GoString :=
  lit "projects/" ++ P ++ lit "/secrets/" ++ O ++ lit "-admin-token/versions/latest"

/-- The documented address of the registration-token secret. -/
def registrationTokenAddress (P O : GoString) : GoString :=
  lit "projects/" ++ P ++ lit "/secrets/" ++ O ++ lit "-registration-token"

/-- The documented URL text of the registration-token endpoint of `O`. -/
def exchangeURLText (O : GoString) : GoString :=
  lit "https://api.github.com/orgs/" ++ O ++ lit "/actions/runners/registration-token"

/-- The exchange request with the URL `u` and the credential `C`: a `POST`
without body, with the two documented headers. -/
def exchangeRequest (u : URL) (C : GoString) : Request :=
  { Method := lit "POST",
    URL := u,
    Header := [(lit "Authorization", [lit "token " ++ C]),
      (lit "Accept", [lit "application/vnd.github.v3+json"])],
    Body := none }

/-- The trace of a run up to and including the exchange request, for the URL
`u` and the admin credential `C`. -/
def traceUpToDo (P O : GoString) (u : URL) (C : GoString) : Trace :=
  [.NewClient, .AccessSecretVersion { Name := adminTokenAddress P O },
    .Do (exchangeRequest u C)]

/-- The trace of a run up to and including the listing call, for the URL `u`
and the admin credential `C`. -/
def traceUpToList (P O : GoString) (u : URL) (C : GoString) : Trace :=
  [.NewClient, .AccessSecretVersion { Name := adminTokenAddress P O },
    .Do (exchangeRequest u C), .ListSecretVersions { Parent := registrationTokenAddress P O }]

/-- The end of the destroy loop inside a run of `Luigi` for the organization `O`
that sent the exchange request with the URL `u` and the credential `C`. -/
def loopOf (env : Env) (O : GoString) (u : URL) (C : GoString) : LoopEnd :=
  destroyLoop env
    (env.ListSecretVersions (traceUpToDo env.projectId O u C)
      { Parent := registrationTokenAddress env.projectId O })
    (traceUpToList env.projectId O u C)

/-- The admin-token read gives the credential `C`: the name is not empty, the
client is set up, and the read answers without error and with the payload `C`. -/
def ReadsCredential (env : Env) (m : PubSubMessage) (C : List UInt8) : Prop :=
  m.Data ≠ [] ∧ env.NewClient = none ∧
  env.AccessSecretVersion [.NewClient] { Name := adminTokenAddress env.projectId m.Data } =
    .ok { Payload := some { Data := C } }

/-- The exchange request is built: the credential `C` is read and
`http.NewRequest` accepts the URL text, giving the URL `u`. -/
def BuildsRequest (env : Env) (m : PubSubMessage) (C : List UInt8) (u : URL) : Prop :=
  ReadsCredential env m C ∧ env.NewRequestURL (lit "POST") (exchangeURLText m.Data) = .ok u

/-- The exchange gives the token `B`: the request is built, it is answered with
some status code, and reading the body of the response gives `B`. -/
def ExchangesToken (env : Env) (m : PubSubMessage) (C : List UInt8) (u : URL) (status : Nat)
    (B : List UInt8) : Prop :=
  BuildsRequest env m C u ∧
  env.Do [.NewClient, .AccessSecretVersion { Name := adminTokenAddress env.projectId m.Data }]
    (exchangeRequest u C) = .ok { StatusCode := status, Body := .data B }

/-- All steps of an invocation succeed: the name is not empty, the client is set
up, the admin token is read, the request is built and answered and its body
read, every enumeration step and every issued destroy call succeeds, and the
new version is added. -/
def AllStepsSucceed (env : Env) (m : PubSubMessage) : Prop :=
  ∃ (C : List UInt8) (u : URL) (status : Nat) (B : List UInt8) (vs : List SecretVersion)
    (v : SecretVersion),
    ExchangesToken env m C u status B ∧
    env.ListSecretVersions (traceUpToDo env.projectId m.Data u C)
      { Parent := registrationTokenAddress env.projectId m.Data } = vs.map .version ∧
    DestroysSucceed env (traceUpToList env.projectId m.Data u C) vs ∧
    env.AddSecretVersion (traceUpToList env.projectId m.Data u C ++ destroyCalls vs)
      { Parent := registrationTokenAddress env.projectId m.Data,
        Payload := { Data := B } } = .ok v

/-! ## A model of `net/url`, for the concrete environments

`http.NewRequest` parses the URL text with `url.Parse`, and the request carries
the parsed URL.  For the program this is the parameter `Env.NewRequestURL`.  The
functions below model Go's parser on the texts the source can build; the
concrete environments of this file answer with them. -/

/-- The two escaping modes of `net/url` that the path and the fragment use. -/
inductive encoding where
  | encodePath
  | encodeFragment
  deriving DecidableEq, Repr

/-- Go `strings.Cut(s, sep)` for a one-byte separator: the text before the first
`sep` and the text after it (empty when `sep` does not occur). -/
def cut : List UInt8 → UInt8 → List UInt8 × List UInt8
  | [], _ => ([], [])
  | c :: s, sep => if c = sep then ([], s) else ((cut s sep).1.cons c, (cut s sep).2)

/-- Go `stringContainsCTLByte`: some byte is below `0x20` or is `0x7f`. -/
def stringContainsCTLByte (s : List UInt8) : Bool :=
  s.any (fun b => b < 32 || b == 127)

/-- Whether a byte is an ASCII letter. -/
def isLetter (c : UInt8) : Bool := (97 ≤ c && c ≤ 122) || (65 ≤ c && c ≤ 90)

/-- Whether a byte is an ASCII digit. -/
def isDigit (c : UInt8) : Bool := 48 ≤ c && c ≤ 57

/-- Go `getScheme`, scanning after the bytes `acc` already read: the scheme
before the first `:` and the rest after it.  `none` stands for the answers
without a scheme (and for the error of a leading `:`), which the texts of the
source never get. -/
def getSchemeFrom (acc : List UInt8) : List UInt8 → Option (List UInt8 × List UInt8)
  | [] => none
  | c :: s =>
    if isLetter c then getSchemeFrom (acc ++ [c]) s
    else if isDigit c || c == 43 || c == 45 || c == 46 then
      if acc.isEmpty then none else getSchemeFrom (acc ++ [c]) s
    else if c == 58 then
      if acc.isEmpty then none else some (acc, s)
    else none

/-- Go `strings.ToLower` on ASCII text. -/
def toLower (s : List UInt8) : List UInt8 :=
  s.map (fun c => if 65 ≤ c && c ≤ 90 then c + 32 else c)

/-- Go `shouldEscape(c, mode)` for the path and the fragment modes. -/
def shouldEscape (c : UInt8) (mode : encoding) : Bool :=
  if isLetter c || isDigit c then false
  else if c == 45 || c == 95 || c == 46 || c == 126 then false
  else if c == 36 || c == 38 || c == 43 || c == 44 || c == 47 || c == 58 || c == 59 ||
      c == 61 || c == 63 || c == 64 then
    match mode with
    | .encodePath => c == 63
    | .encodeFragment => false
  else if mode == .encodeFragment && (c == 33 || c == 40 || c == 41 || c == 42) then false
  else true

/-- Go `ishex`. -/
def ishex (c : UInt8) : Bool :=
  isDigit c || (97 ≤ c && c ≤ 102) || (65 ≤ c && c ≤ 70)

/-- Go `unhex`. -/
def unhex (c : UInt8) : UInt8 :=
  if isDigit c then c - 48
  else if 97 ≤ c && c ≤ 102 then c - 97 + 10
  else if 65 ≤ c && c ≤ 70 then c - 65 + 10
  else 0

/-- Where the decoder of `unescape` stands: outside an escape, after `%`, or
after `%` and one hex digit. -/
inductive EscapeState where
  | plain
  | percent
  | digit (h : UInt8)
  deriving DecidableEq, Repr

/-- Go `unescape(s, mode)` for the path and the fragment modes: every `%XX`
becomes the byte it encodes; a `%` that is not followed by two hex digits is an
error. -/
def unescapeFrom : EscapeState → List UInt8 → Result (List UInt8)
  | .plain, [] => .ok []
  | _, [] => .error { msg := "invalid URL escape" }
  | .plain, c :: s =>
    if c = 37 then unescapeFrom .percent s
    else match unescapeFrom .plain s with
      | .ok r => .ok (c :: r)
      | .error e => .error e
  | .percent, c :: s =>
    if ishex c then unescapeFrom (.digit c) s else .error { msg := "invalid URL escape" }
  | .digit h, c :: s =>
    if ishex c then
      match unescapeFrom .plain s with
      | .ok r => .ok ((unhex h * 16 + unhex c) :: r)
      | .error e => .error e
    else .error { msg := "invalid URL escape" }

/-- Go `unescape(s, mode)` for the path and the fragment modes. -/
def unescape (s : List UInt8) : Result (List UInt8) := unescapeFrom .plain s

/-- The hex digit of a value below 16, in upper case (`upperhex`). -/
def upperhex (n : UInt8) : UInt8 := if n < 10 then 48 + n else 55 + n

/-- Go `escape(s, mode)`: every byte that `shouldEscape` names becomes `%XX`. -/
def escape (s : List UInt8) (mode : encoding) : List UInt8 :=
  s.flatMap (fun c =>
    if shouldEscape c mode then [37, upperhex (c / 16), upperhex (c % 16)] else [c])

/-- Go `validEncoded(s, mode)`. -/
def validEncoded (s : List UInt8) (mode : encoding) : Bool :=
  s.all (fun c =>
    if c == 33 || c == 36 || c == 38 || c == 39 || c == 40 || c == 41 || c == 42 || c == 43 ||
        c == 44 || c == 59 || c == 61 || c == 58 || c == 64 then true
    else if c == 91 || c == 93 then true
    else if c == 37 then true
    else !shouldEscape c mode)

/-- Go `URL.EscapedPath()`. -/
def URL.EscapedPath (u : URL) : GoString :=
  if u.RawPath ≠ [] ∧ validEncoded u.RawPath .encodePath = true ∧
      unescape u.RawPath = .ok u.Path then u.RawPath
  else if u.Path = [42] then [42]
  else escape u.Path .encodePath

/-- Go `URL.EscapedFragment()`. -/
def URL.EscapedFragment (u : URL) : GoString :=
  if u.RawFragment ≠ [] ∧ validEncoded u.RawFragment .encodeFragment = true ∧
      unescape u.RawFragment = .ok u.Fragment then u.RawFragment
  else escape u.Fragment .encodeFragment

/-- Go `URL.String()` for a URL without `Opaque` and `User`. -/
def URL.String (u : URL) : GoString :=
  (if u.Scheme ≠ [] then u.Scheme ++ [58] else []) ++
  (if u.Scheme ≠ [] ∨ u.Host ≠ [] then
    (if u.Host ≠ [] ∨ u.Path ≠ [] then [47, 47] else []) ++ u.Host else []) ++
  (if u.EscapedPath ≠ [] ∧ u.EscapedPath.head? ≠ some 47 ∧ u.Host ≠ [] then [47] else []) ++
  (if u.Scheme = [] ∧ u.Host = [] ∧ (cut u.EscapedPath 47).1.contains 58 then [46, 47] else []) ++
  u.EscapedPath ++
  (if u.ForceQuery = true ∨ u.RawQuery ≠ [] then 63 :: u.RawQuery else []) ++
  (if u.Fragment ≠ [] then 35 :: u.EscapedFragment else [])

/-- Whether a byte of an authority is a letter, a digit, `-` or `.`. -/
def isPlainHostByte (c : UInt8) : Bool := isLetter c || isDigit c || c == 45 || c == 46

/-- Go `url.Parse(rawURL)` on texts with a scheme followed by `//` and an
authority of letters, digits, `-` and `.` (the text of the source always starts
with `https://api.github.com/`).  The fragment is cut off at the first `#`; a
control byte before it is an error; the query is cut off at the first `?`; the
path is unescaped, and kept in `RawPath` when its default escaping differs from
it.  Other texts are outside the model and answered with an error.  An error
carries the message of the cause, without the wrapper `parse "...": ` that Go
puts in front of it. -/
def goParse (rawURL : GoString) : Result URL :=
  let u := (cut rawURL 35).1
  let frag := (cut rawURL 35).2
  if stringContainsCTLByte u then .error { msg := "net/url: invalid control character in URL" }
  else
  match getSchemeFrom [] u with
  | none => .error { msg := "outside the model: no scheme" }
  | some (scheme, rest) =>
    let forceQuery : Bool := rest.getLast? == some 63 && rest.count 63 == 1
    let rawQuery := if forceQuery then [] else (cut rest 63).2
    let rest := if forceQuery then rest.dropLast else (cut rest 63).1
    match rest with
    | 47 :: 47 :: auth =>
      let authority := (cut auth 47).1
      let path := auth.drop authority.length
      if !authority.all isPlainHostByte then .error { msg := "outside the model: authority" }
      else
      match unescape path with
      | .error e => .error e
      | .ok p =>
        let url : URL :=
          { Scheme := toLower scheme, Host := authority, Path := p,
            RawPath := if path = escape p .encodePath then [] else path,
            ForceQuery := forceQuery, RawQuery := rawQuery, Fragment := [], RawFragment := [] }
        if frag = [] then .ok url
        else
        match unescape frag with
        | .error e => .error e
        | .ok f =>
          .ok { url with
            Fragment := f,
            RawFragment := if frag = escape f .encodeFragment then [] else frag }
    | _ => .error { msg := "outside the model: no authority" }

/-- Whether a byte is an unreserved character of RFC 3986: a letter, a digit,
`-`, `.`, `_` or `~`. -/
def isUnreserved (c : UInt8) : Bool :=
  isLetter c || isDigit c || c == 45 || c == 46 || c == 95 || c == 126

/-- The URL that the documented text of the endpoint of `O` reads as: scheme
`https`, host `api.github.com`, the path `/orgs/O/actions/runners/registration-token`
in its default escaping, no query and no fragment. -/
def exchangeURL (O : GoString) : URL :=
  { Scheme := lit "https", Host := lit "api.github.com",
    Path := lit "/orgs/" ++ O ++ lit "/actions/runners/registration-token",
    RawPath := [], ForceQuery := false, RawQuery := [], Fragment := [], RawFragment := [] }

/-- An environment in which no call fails: the admin secret holds `cred`, the
API answers with `status` and `body`, and the enumeration gives `vs`. -/
def happyEnv (projectId : GoString) (cred : List UInt8) (status : Nat) (body : List UInt8)
    (vs : List SecretVersion) : Env where
  projectId := projectId
  NewClient := none
  AccessSecretVersion := fun _ _ => .ok { Payload := some { Data := cred } }
  NewRequestURL := fun _ url => goParse url
  Do := fun _ _ => .ok { StatusCode := status, Body := .data body }
  ListSecretVersions := fun _ _ => vs.map .version
  DestroySecretVersion := fun _ _ => none
  AddSecretVersion := fun _ req =>
    .ok { Name := req.Parent ++ lit "/versions/new", State := .ENABLED }

/-- The environment `happyEnv`, except that the destroy call issued after `k`
earlier destroy calls fails. -/
def destroyFailsEnv (projectId : GoString) (cred : List UInt8) (status : Nat)
    (body : List UInt8) (it : List NextResult) (k : Nat) : Env where
  projectId := projectId
  NewClient := none
  AccessSecretVersion := fun _ _ => .ok { Payload := some { Data := cred } }
  NewRequestURL := fun _ url => goParse url
  Do := fun _ _ => .ok { StatusCode := status, Body := .data body }
  ListSecretVersions := fun _ _ => it
  DestroySecretVersion := fun t _ =>
    if (t.filter Call.isDestroy).length = k then some { msg := "unavailable" } else none
  AddSecretVersion := fun _ req =>
    .ok { Name := req.Parent ++ lit "/versions/new", State := .ENABLED }

/-- The environment `happyEnv`, except that the admin-token read is answered
without error and without payload (`result.Payload` is nil). -/
def noPayloadEnv (projectId : GoString) (status : Nat) (body : List UInt8)
    (vs : List SecretVersion) : Env where
  projectId := projectId
  NewClient := none
  AccessSecretVersion := fun _ _ => .ok { Payload := none }
  NewRequestURL := fun _ url => goParse url
  Do := fun _ _ => .ok { StatusCode := status, Body := .data body }
  ListSecretVersions := fun _ _ => vs.map .version
  DestroySecretVersion := fun _ _ => none
  AddSecretVersion := fun _ req =>
    .ok { Name := req.Parent ++ lit "/versions/new", State := .ENABLED }

/-- Three enumerated versions: the first and the third enabled, the second
destroyed. -/
def threeVersions : List SecretVersion :=
  [{ Name := lit "projects/P/secrets/acme-registration-token/versions/1", State := .ENABLED },
   { Name := lit "projects/P/secrets/acme-registration-token/versions/2", State := .DESTROYED },
   { Name := lit "projects/P/secrets/acme-registration-token/versions/3", State := .ENABLED }]

/-- An enumeration of four versions, the second of them destroyed. -/
def fourResults : List NextResult :=
  threeVersions.map .version ++
    [.version { Name := lit "projects/P/secrets/acme-registration-token/versions/4",
                State := .DISABLED }]

/-! ## A model of the secret store

The store is an external service and not part of the program.  The model follows
the behaviour that the statements about the store assume: listing a secret
returns every version of it, destroying a version sets its state to
`DESTROYED`, and adding a version appends a new enabled version. -/

/-- A version held by the store: the secret it belongs to, its own address, its
state and its payload. -/
structure StoredVersion where
  Secret : GoString
  Name : GoString
  State : SecretVersion_State
  Payload : List UInt8
  deriving DecidableEq, Repr

/-- The store: all versions, in creation order (the latest is the last). -/
abbrev Store := List StoredVersion

/-- Modelled from the spec: listing a secret returns every version of it, with
its current state. -/
def Store.list (s : Store) (parent : GoString) : List SecretVersion :=
  (s.filter (fun w => w.Secret = parent)).map (fun w => { Name := w.Name, State := w.State })

/-- Modelled from the spec: destroying the version with the address `name` sets
its state to `DESTROYED`. -/
def Store.destroy (s : Store) (name : GoString) : Store :=
  s.map (fun w => if w.Name = name then { w with State := .DESTROYED } else w)

/-- Modelled from the spec: adding a version to the secret `parent` appends a
new enabled version with the payload, which becomes the latest; it is numbered
after the versions the secret has. -/
def Store.add (s : Store) (parent : GoString) (payload : List UInt8) : Store :=
  s ++ [{ Secret := parent,
          Name := parent ++ lit "/versions/" ++
            lit (toString ((s.filter (fun w => w.Secret = parent)).length + 1)),
          State := .ENABLED,
          Payload := payload }]

/-- The effect of one successful call on the store. -/
def Store.apply (s : Store) : Call → Store
  | .DestroySecretVersion req => s.destroy req.Name
  | .AddSecretVersion req => s.add req.Parent req.Payload.Data
  | _ => s

/-- The store after a sequence of successful calls. -/
def Store.replay (s : Store) (t : Trace) : Store := t.foldl Store.apply s

/-- The addresses targeted by the destroy calls of a trace. -/
def destroyNames (t : Trace) : List GoString :=
  t.filterMap (fun c => match c with
    | .DestroySecretVersion req => some req.Name
    | _ => none)

/-- The store with every version whose address is among `names` destroyed. -/
def Store.destroyAll (s : Store) (names : List GoString) : Store :=
  s.map (fun w => if w.Name ∈ names then { w with State := .DESTROYED } else w)

/-- The environment lists the store: whatever calls came before, listing a
secret returns (at least) every version the store then holds for it. -/
def ListsStore (env : Env) (s : Store) : Prop :=
  ∀ (t : Trace) (req : ListSecretVersionsRequest),
    ∀ v ∈ (s.replay t).list req.Parent, NextResult.version v ∈ env.ListSecretVersions t req

/-- An environment backed by the store `s`: listing returns the versions the
store holds after the calls so far, in creation order.  With `failAt = some k`
the destroy call issued after `k` earlier destroy calls fails; with `failAdd`
the add-version call fails. -/
def storeEnv (projectId : GoString) (s : Store) (cred : List UInt8) (status : Nat)
    (body : List UInt8) (failAt : Option Nat) (failAdd : Bool) : Env where
  projectId := projectId
  NewClient := none
  AccessSecretVersion := fun _ _ => .ok { Payload := some { Data := cred } }
  NewRequestURL := fun _ url => goParse url
  Do := fun _ _ => .ok { StatusCode := status, Body := .data body }
  ListSecretVersions := fun t req => ((s.replay t).list req.Parent).map .version
  DestroySecretVersion := fun t _ =>
    if failAt = some (t.filter Call.isDestroy).length then some { msg := "unavailable" }
    else none
  AddSecretVersion := fun t req =>
    if failAdd then .error { msg := "unavailable" }
    else match ((s.replay t).add req.Parent req.Payload.Data).getLast? with
      | some w => .ok { Name := w.Name, State := w.State }
      | none => .error { msg := "internal" }

/-- A store holding two enabled versions of the registration-token secret of
the organization `acme` in the project `P`. -/
def twoStored : Store :=
  [{ Secret := lit "projects/P/secrets/acme-registration-token",
     Name := lit "projects/P/secrets/acme-registration-token/versions/1",
     State := .ENABLED, Payload := lit "OLD-1" },
   { Secret := lit "projects/P/secrets/acme-registration-token",
     Name := lit "projects/P/secrets/acme-registration-token/versions/2",
     State := .ENABLED, Payload := lit "OLD-2" }]

/-- An invocation for `acme` on the store `twoStored` that aborts in the destroy
loop: the first destroy call succeeds and the second one fails. -/
def abortedInLoop : Run :=
  Luigi (storeEnv (lit "P") twoStored (lit "ghs_abc123") 201 (lit "TOKEN-1") (some 1) false)
    { Data := lit "acme" }

/-- An invocation for `acme` on the store `twoStored` that aborts at the
add-version call, after both destroy calls succeeded. -/
def abortedAtAdd : Run :=
  Luigi (storeEnv (lit "P") twoStored (lit "ghs_abc123") 201 (lit "TOKEN-1") none true)
    { Data := lit "acme" }

/-- A retry for `acme` in which no call fails, on the store `s` and with the
exchange answering `TOKEN-2`. -/
def retryOn (s : Store) : Run :=
  Luigi (storeEnv (lit "P") s (lit "ghs_abc123") 201 (lit "TOKEN-2") none false)
    { Data := lit "acme" }

/-- The store `twoStored` after one successful rotation to `TOKEN-2`: both old
versions destroyed, and a third, enabled version with the token. -/
def rotatedStore : Store :=
  [{ Secret := lit "projects/P/secrets/acme-registration-token",
     Name := lit "projects/P/secrets/acme-registration-token/versions/1",
     State := .DESTROYED, Payload := lit "OLD-1" },
   { Secret := lit "projects/P/secrets/acme-registration-token",
     Name := lit "projects/P/secrets/acme-registration-token/versions/2",
     State := .DESTROYED, Payload := lit "OLD-2" },
   { Secret := lit "projects/P/secrets/acme-registration-token",
     Name := lit "projects/P/secrets/acme-registration-token/versions/3",
     State := .ENABLED, Payload := lit "TOKEN-2" }]

/-! ## Facts about `Sprintf` -/

theorem lit_empty : lit "" = [] := by decide

theorem doPrintf_verb_s (fmt : List UInt8) (a : GoString) (args : List GoString) :
    doPrintf (37 :: 115 :: fmt) false (a :: args) = a ++ doPrintf fmt false args := by
  simp [doPrintf]

theorem doPrintf_plain (seg fmt : List UInt8) (args : List GoString)
    (h : ∀ c ∈ seg, c ≠ 37) :
    doPrintf (seg ++ fmt) false args = seg ++ doPrintf fmt false args := by
  induction seg with
  | nil => rfl
  | cons c seg ih =>
    have hc : c ≠ 37 := h c (by simp)
    have hs : ∀ d ∈ seg, d ≠ 37 := fun d hd => h d (by simp [hd])
    simp [doPrintf, hc, ih hs]

theorem doPrintf_nil (args : List GoString) : doPrintf [] false args = [] := by
  simp [doPrintf]

/-- The admin-token address, written out. -/
theorem accessRequest_Name (P O : GoString) :
    (accessRequest P O).Name =
      lit "projects/" ++ P ++ lit "/secrets/" ++ O ++ lit "-admin-token/versions/latest" := by
  have hf : lit "projects/%s/secrets/%s-%s/versions/latest" =
      lit "projects/" ++ 37 :: 115 :: (lit "/secrets/" ++ 37 :: 115 ::
        (lit "-" ++ 37 :: 115 :: (lit "/versions/latest" ++ []))) := by decide
  have he : lit "-" ++ (ghTokenSecretSuffix ++ lit "/versions/latest") =
      lit "-admin-token/versions/latest" := by decide
  simp only [accessRequest, Sprintf]
  rw [hf, doPrintf_plain _ _ _ (by decide), doPrintf_verb_s,
    doPrintf_plain _ _ _ (by decide), doPrintf_verb_s,
    doPrintf_plain _ _ _ (by decide), doPrintf_verb_s,
    doPrintf_plain _ _ _ (by decide), doPrintf_nil]
  simp only [List.append_assoc, List.append_nil, he]

/-- The registration-token address, written out. -/
theorem registrationParent_eq (P O : GoString) :
    Sprintf (lit "projects/%s/secrets/%s-%s") [P, O, regTokenSecretSuffix] =
      lit "projects/" ++ P ++ lit "/secrets/" ++ O ++ lit "-registration-token" := by
  have hf : lit "projects/%s/secrets/%s-%s" =
      lit "projects/" ++ 37 :: 115 :: (lit "/secrets/" ++ 37 :: 115 ::
        (lit "-" ++ 37 :: 115 :: [])) := by decide
  have he : lit "-" ++ regTokenSecretSuffix = lit "-registration-token" := by decide
  simp only [Sprintf]
  rw [hf, doPrintf_plain _ _ _ (by decide), doPrintf_verb_s,
    doPrintf_plain _ _ _ (by decide), doPrintf_verb_s,
    doPrintf_plain _ _ _ (by decide), doPrintf_verb_s, doPrintf_nil]
  simp only [List.append_assoc, List.append_nil, he]

/-- The URL of the registration-token endpoint, written out. -/
theorem registrationURL_eq (O : GoString) :
    Sprintf (lit "https://api.github.com/orgs/%s/actions/runners/registration-token") [O] =
      lit "https://api.github.com/orgs/" ++ O ++ lit "/actions/runners/registration-token" := by
  have hf : lit "https://api.github.com/orgs/%s/actions/runners/registration-token" =
      lit "https://api.github.com/orgs/" ++ 37 :: 115 ::
        (lit "/actions/runners/registration-token" ++ []) := by decide
  simp only [Sprintf]
  rw [hf, doPrintf_plain _ _ _ (by decide), doPrintf_verb_s,
    doPrintf_plain _ _ _ (by decide), doPrintf_nil]
  simp only [List.append_assoc, List.append_nil]

/-- The value of the `Authorization` header, written out. -/
theorem authorization_eq (C : GoString) :
    Sprintf (lit "token %s") [C] = lit "token " ++ C := by
  have hf : lit "token %s" = lit "token " ++ 37 :: 115 :: [] := by decide
  simp only [Sprintf]
  rw [hf, doPrintf_plain _ _ _ (by decide), doPrintf_verb_s, doPrintf_nil]
  simp only [List.append_nil]

/-! ## The helper functions, case by case -/

theorem fetch_error (env : Env) (O : GoString) (t : Trace) (err : GoError)
    (h : env.AccessSecretVersion t (accessRequest env.projectId O) = .error err) :
    fetchGHAccessToken env O t =
      .fatal (t ++ [.AccessSecretVersion (accessRequest env.projectId O)])
        (.accessSecretVersion err) := by
  simp [fetchGHAccessToken, h]

theorem fetch_ok (env : Env) (O : GoString) (t : Trace) (C : List UInt8)
    (h : env.AccessSecretVersion t (accessRequest env.projectId O) =
      .ok { Payload := some { Data := C } }) :
    fetchGHAccessToken env O t =
      .ok (t ++ [.AccessSecretVersion (accessRequest env.projectId O)]) C := by
  simp [fetchGHAccessToken, h, string]

theorem fetch_panic (env : Env) (O : GoString) (t : Trace)
    (h : env.AccessSecretVersion t (accessRequest env.projectId O) = .ok { Payload := none }) :
    fetchGHAccessToken env O t =
      .panic (t ++ [.AccessSecretVersion (accessRequest env.projectId O)]) := by
  simp [fetchGHAccessToken, h]

theorem fetch_trace (env : Env) (O : GoString) (t : Trace) :
    (fetchGHAccessToken env O t).trace =
      t ++ [.AccessSecretVersion (accessRequest env.projectId O)] := by
  cases h : env.AccessSecretVersion t (accessRequest env.projectId O) with
  | error err => rw [fetch_error env O t err h]; rfl
  | ok r =>
    obtain ⟨p⟩ := r
    cases p with
    | none => rw [fetch_panic env O t h]; rfl
    | some p => rw [fetch_ok env O t p.Data h]; rfl

/-- The request that `requestRegistrationToken` builds: `http.NewRequest` is
handed `POST` and the documented URL text, and the request carries the URL it
answers and the two headers. -/
theorem registrationRequest_eq (env : Env) (C O : GoString) :
    registrationRequest env C O =
      match env.NewRequestURL (lit "POST") (exchangeURLText O) with
      | .error err => .error err
      | .ok u => .ok (exchangeRequest u C) := by
  have hk : (lit "Authorization" != lit "Accept") = true := by decide
  have hm : (lit "POST" = lit "") = False := by simp; decide
  unfold registrationRequest NewRequest
  rw [registrationURL_eq, authorization_eq]
  rw [show lit "https://api.github.com/orgs/" ++ O ++
    lit "/actions/runners/registration-token" = exchangeURLText O from rfl]
  cases env.NewRequestURL (lit "POST") (exchangeURLText O) with
  | error err => rfl
  | ok u => simp [Header.Set, hk, hm, exchangeRequest]

theorem save_ok (env : Env) (O tok : GoString) (t : Trace) (v : SecretVersion)
    (h : env.AddSecretVersion t (addRequest env.projectId O tok) = .ok v) :
    saveRegistrationToken env O tok t =
      .ok (t ++ [.AddSecretVersion (addRequest env.projectId O tok)]) () := by
  simp [saveRegistrationToken, h]

theorem save_error (env : Env) (O tok : GoString) (t : Trace) (err : GoError)
    (h : env.AddSecretVersion t (addRequest env.projectId O tok) = .error err) :
    saveRegistrationToken env O tok t =
      .fatal (t ++ [.AddSecretVersion (addRequest env.projectId O tok)])
        (.addSecretVersion err) := by
  simp [saveRegistrationToken, h]

theorem save_trace (env : Env) (O tok : GoString) (t : Trace) :
    (saveRegistrationToken env O tok t).trace =
      t ++ [.AddSecretVersion (addRequest env.projectId O tok)] := by
  cases h : env.AddSecretVersion t (addRequest env.projectId O tok) with
  | error err => rw [save_error env O tok t err h]; rfl
  | ok v => rw [save_ok env O tok t v h]; rfl

/-- The loop only ever appends destroy calls to the trace. -/
theorem destroyLoop_trace (env : Env) (it : List NextResult) (t : Trace) :
    ∃ ds : Trace, (destroyLoop env it t).trace = t ++ ds ∧ ∀ c ∈ ds, c.isDestroy = true := by
  induction it generalizing t with
  | nil => exact ⟨[], by simp [destroyLoop]⟩
  | cons r rest ih =>
    cases r with
    | failure err => exact ⟨[], by simp [destroyLoop]⟩
    | version resp =>
      by_cases hs : resp.State = .DESTROYED
      · simpa [destroyLoop, hs] using ih t
      · cases hd : env.DestroySecretVersion t { Name := resp.Name } with
        | some err =>
          exact ⟨[.DestroySecretVersion { Name := resp.Name }],
            by simp [destroyLoop, hs, hd, Call.isDestroy]⟩
        | none =>
          obtain ⟨ds, h1, h2⟩ := ih (t ++ [.DestroySecretVersion { Name := resp.Name }])
          refine ⟨.DestroySecretVersion { Name := resp.Name } :: ds, ?_, ?_⟩
          · simp [destroyLoop, hs, hd, h1]
          · intro c hc
            rcases List.mem_cons.mp hc with rfl | hc
            · rfl
            · exact h2 c hc

theorem destroyOlderVersions_trace (env : Env) (O : GoString) (t : Trace) :
    ∃ ds : Trace, (destroyOlderVersions env O t).trace =
        t ++ .ListSecretVersions (listRequest env.projectId O) :: ds ∧
      ∀ c ∈ ds, c.isDestroy = true := by
  obtain ⟨ds, h1, h2⟩ := destroyLoop_trace env
    (env.ListSecretVersions t (listRequest env.projectId O))
    (t ++ [.ListSecretVersions (listRequest env.projectId O)])
  refine ⟨ds, ?_, h2⟩
  unfold destroyOlderVersions
  simp only []
  split <;> simp [Step.trace, h1]

theorem request_create_error (env : Env) (C O : GoString) (t : Trace) (err : GoError)
    (h : registrationRequest env C O = .error err) :
    requestRegistrationToken env C O t = .fatal t (.createRequest err) := by
  simp [requestRegistrationToken, h]

theorem request_do_error (env : Env) (C O : GoString) (t : Trace) (req : Request)
    (err : GoError) (h : registrationRequest env C O = .ok req)
    (hd : env.Do t req = .error err) :
    requestRegistrationToken env C O t =
      .fatal (t ++ [.Do req]) (.requestRegistrationToken err) := by
  simp [requestRegistrationToken, h, hd]

theorem request_read_error (env : Env) (C O : GoString) (t : Trace) (req : Request)
    (status : Nat) (err : GoError) (h : registrationRequest env C O = .ok req)
    (hd : env.Do t req = .ok { StatusCode := status, Body := .failure err }) :
    requestRegistrationToken env C O t = .fatal (t ++ [.Do req]) (.readBody err) := by
  simp [requestRegistrationToken, h, hd]

theorem request_ok (env : Env) (C O : GoString) (t : Trace) (req : Request)
    (status : Nat) (body : List UInt8) (h : registrationRequest env C O = .ok req)
    (hd : env.Do t req = .ok { StatusCode := status, Body := .data body }) :
    requestRegistrationToken env C O t = .ok (t ++ [.Do req]) body := by
  simp [requestRegistrationToken, h, hd, string]

theorem destroyOlderVersions_died (env : Env) (O : GoString) (t : Trace) (site : Fatal)
    (h : (destroyLoop env (env.ListSecretVersions t (listRequest env.projectId O))
      (t ++ [.ListSecretVersions (listRequest env.projectId O)])).died = some site) :
    destroyOlderVersions env O t =
      .fatal (destroyLoop env (env.ListSecretVersions t (listRequest env.projectId O))
        (t ++ [.ListSecretVersions (listRequest env.projectId O)])).trace site := by
  simp [destroyOlderVersions, h]

theorem destroyOlderVersions_done (env : Env) (O : GoString) (t : Trace)
    (h : (destroyLoop env (env.ListSecretVersions t (listRequest env.projectId O))
      (t ++ [.ListSecretVersions (listRequest env.projectId O)])).died = none) :
    destroyOlderVersions env O t =
      .ok (destroyLoop env (env.ListSecretVersions t (listRequest env.projectId O))
        (t ++ [.ListSecretVersions (listRequest env.projectId O)])).trace () := by
  simp [destroyOlderVersions, h]

/-! ## The destroy loop -/

theorem destroyCalls_nil : destroyCalls [] = [] := rfl

theorem destroyCalls_cons_live (v : SecretVersion) (vs : List SecretVersion)
    (h : v.State ≠ .DESTROYED) :
    destroyCalls (v :: vs) = .DestroySecretVersion { Name := v.Name } :: destroyCalls vs := by
  simp [destroyCalls, h]

theorem destroyCalls_cons_dead (v : SecretVersion) (vs : List SecretVersion)
    (h : v.State = .DESTROYED) :
    destroyCalls (v :: vs) = destroyCalls vs := by
  simp [destroyCalls, h]

theorem destroyCalls_isDestroy (vs : List SecretVersion) :
    ∀ c ∈ destroyCalls vs, c.isDestroy = true := by
  intro c hc
  simp only [destroyCalls, List.mem_map] at hc
  obtain ⟨v, _, rfl⟩ := hc
  rfl

theorem DestroysSucceed_nil (env : Env) (t : Trace) : DestroysSucceed env t [] := by
  intro j hj
  simp at hj

theorem DestroysSucceed_cons_live (env : Env) (t : Trace) (v : SecretVersion)
    (vs : List SecretVersion) (h : v.State ≠ .DESTROYED) :
    DestroysSucceed env t (v :: vs) ↔
      env.DestroySecretVersion t { Name := v.Name } = none ∧
      DestroysSucceed env (t ++ [.DestroySecretVersion { Name := v.Name }]) vs := by
  constructor
  · intro hs
    refine ⟨?_, ?_⟩
    · have := hs 0 (by simp) h
      simpa [destroyCalls] using this
    · intro j hj hl
      have := hs (j + 1) (by simpa using hj) (by simpa using hl)
      simpa [List.take_succ_cons, destroyCalls_cons_live v _ h] using this
  · rintro ⟨h0, hs⟩ j hj hl
    cases j with
    | zero => simpa [destroyCalls] using h0
    | succ j =>
      have := hs j (by simpa using hj) (by simpa using hl)
      simpa [List.take_succ_cons, destroyCalls_cons_live v _ h] using this

theorem DestroysSucceed_cons_dead (env : Env) (t : Trace) (v : SecretVersion)
    (vs : List SecretVersion) (h : v.State = .DESTROYED) :
    DestroysSucceed env t (v :: vs) ↔ DestroysSucceed env t vs := by
  constructor
  · intro hs j hj hl
    have := hs (j + 1) (by simpa using hj) (by simpa using hl)
    simpa [List.take_succ_cons, destroyCalls_cons_dead v _ h] using this
  · intro hs j hj hl
    cases j with
    | zero => exact absurd h (by simpa using hl)
    | succ j =>
      have := hs j (by simpa using hj) (by simpa using hl)
      simpa [List.take_succ_cons, destroyCalls_cons_dead v _ h] using this

/-- The loop runs through successfully enumerated versions whose destroy calls
succeed, issuing exactly the destroy calls they are owed. -/
theorem destroyLoop_versions (env : Env) (vs : List SecretVersion) (rest : List NextResult)
    (t : Trace) (h : DestroysSucceed env t vs) :
    destroyLoop env (vs.map .version ++ rest) t =
      destroyLoop env rest (t ++ destroyCalls vs) := by
  induction vs generalizing t with
  | nil => simp [destroyCalls]
  | cons v vs ih =>
    by_cases hs : v.State = .DESTROYED
    · rw [DestroysSucceed_cons_dead env t v vs hs] at h
      simp [destroyLoop, hs, destroyCalls_cons_dead v vs hs, ih t h]
    · rw [DestroysSucceed_cons_live env t v vs hs] at h
      simp [destroyLoop, hs, destroyCalls_cons_live v vs hs, h.1, ih _ h.2]

/-- A loop that leaves through `break` has enumerated versions only, and every
destroy call it issued succeeded. -/
theorem destroyLoop_done_inv (env : Env) (it : List NextResult) (t : Trace)
    (h : (destroyLoop env it t).died = none) :
    ∃ vs : List SecretVersion, it = vs.map .version ∧ DestroysSucceed env t vs := by
  induction it generalizing t with
  | nil => exact ⟨[], rfl, DestroysSucceed_nil env t⟩
  | cons r rest ih =>
    cases r with
    | failure err => simp [destroyLoop] at h
    | version resp =>
      by_cases hs : resp.State = .DESTROYED
      · simp only [destroyLoop, hs, ne_eq, not_true_eq_false, if_false] at h
        obtain ⟨vs, h1, h2⟩ := ih t h
        exact ⟨resp :: vs, by simp [h1], (DestroysSucceed_cons_dead env t resp vs hs).2 h2⟩
      · cases hd : env.DestroySecretVersion t { Name := resp.Name } with
        | some err => simp [destroyLoop, hs, hd] at h
        | none =>
          simp only [destroyLoop, hs, ne_eq, not_false_eq_true, if_true, hd] at h
          obtain ⟨vs, h1, h2⟩ := ih _ h
          exact ⟨resp :: vs, by simp [h1],
            (DestroysSucceed_cons_live env t resp vs hs).2 ⟨hd, h2⟩⟩

theorem destroyLoop_done (env : Env) (vs : List SecretVersion) (t : Trace)
    (h : DestroysSucceed env t vs) :
    destroyLoop env (vs.map .version) t =
      { trace := t ++ destroyCalls vs, rest := [], died := none } := by
  have := destroyLoop_versions env vs [] t h
  simpa [destroyLoop] using this

/-- The loop dies only at its two `log.Fatalf` sites. -/
theorem destroyLoop_died_site (env : Env) (it : List NextResult) (t : Trace) (site : Fatal)
    (h : (destroyLoop env it t).died = some site) :
    (∃ err, site = .listSecretVersions err) ∨ (∃ err, site = .destroySecretVersion err) := by
  induction it generalizing t with
  | nil => simp [destroyLoop] at h
  | cons r rest ih =>
    cases r with
    | failure err =>
      simp only [destroyLoop, Option.some.injEq] at h
      exact Or.inl ⟨err, h.symm⟩
    | version resp =>
      by_cases hs : resp.State = .DESTROYED
      · simp only [destroyLoop, hs, ne_eq, not_true_eq_false, if_false] at h
        exact ih t h
      · cases hd : env.DestroySecretVersion t { Name := resp.Name } with
        | some err =>
          simp only [destroyLoop, hs, ne_eq, not_false_eq_true, if_true, hd,
            Option.some.injEq] at h
          exact Or.inr ⟨err, h.symm⟩
        | none =>
          simp only [destroyLoop, hs, ne_eq, not_false_eq_true, if_true, hd] at h
          exact ih _ h

/-! ## The requests, in their documented form -/

theorem accessRequest_eq (P O : GoString) :
    accessRequest P O = { Name := adminTokenAddress P O } := by
  have := accessRequest_Name P O
  cases hr : accessRequest P O
  simp_all [adminTokenAddress]

theorem listRequest_eq (P O : GoString) :
    listRequest P O = { Parent := registrationTokenAddress P O } := by
  simp only [listRequest, registrationParent_eq, registrationTokenAddress]

theorem addRequest_eq (P O tok : GoString) :
    addRequest P O tok =
      { Parent := registrationTokenAddress P O, Payload := { Data := tok } } := by
  simp only [addRequest, registrationParent_eq, registrationTokenAddress, bytes]

theorem destroyCalls_filter_isAdd (vs : List SecretVersion) :
    (destroyCalls vs).filter Call.isAdd = [] := by
  rw [List.filter_eq_nil_iff]
  intro c hc
  simp only [destroyCalls, List.mem_map] at hc
  obtain ⟨v, _, rfl⟩ := hc
  simp [Call.isAdd]

theorem destroyCalls_filter_isRemote (vs : List SecretVersion) :
    (destroyCalls vs).filter Call.isRemote = destroyCalls vs := by
  rw [List.filter_eq_self]
  intro c hc
  simp only [destroyCalls, List.mem_map] at hc
  obtain ⟨v, _, rfl⟩ := hc
  rfl

theorem length_filter_live (vs : List SecretVersion) :
    (vs.filter (fun v => v.State ≠ .DESTROYED)).length =
      vs.length - vs.countP (fun v => v.State = .DESTROYED) := by
  have h := List.length_eq_countP_add_countP (fun v : SecretVersion => decide (v.State = .DESTROYED)) vs
  have h2 : (vs.filter (fun v => v.State ≠ .DESTROYED)).length =
      vs.countP (fun v => ¬ (decide (v.State = .DESTROYED) = true)) := by
    rw [List.countP_eq_length_filter]
    congr 2
    funext v
    simp
  omega


/-! ## The runs of `Luigi`, case by case -/

theorem fetch_read (env : Env) (m : PubSubMessage) (C : List UInt8)
    (hr : ReadsCredential env m C) :
    fetchGHAccessToken env m.Data [.NewClient] =
      .ok [.NewClient, .AccessSecretVersion { Name := adminTokenAddress env.projectId m.Data }]
        C := by
  have h := fetch_ok env m.Data [.NewClient] C (by rw [accessRequest_eq]; exact hr.2.2)
  rw [accessRequest_eq] at h
  exact h

theorem registrationRequest_built (env : Env) (m : PubSubMessage) (C : List UInt8) (u : URL)
    (hb : BuildsRequest env m C u) :
    registrationRequest env C m.Data = .ok (exchangeRequest u C) := by
  rw [registrationRequest_eq, hb.2]

theorem destroyOlderVersions_loopOf_died (env : Env) (O : GoString) (u : URL) (C : GoString)
    (site : Fatal) (h : (loopOf env O u C).died = some site) :
    destroyOlderVersions env O (traceUpToDo env.projectId O u C) =
      .fatal (loopOf env O u C).trace site := by
  have h2 := destroyOlderVersions_died env O (traceUpToDo env.projectId O u C) site
    (by rw [listRequest_eq]; exact h)
  rw [listRequest_eq] at h2
  exact h2

theorem destroyOlderVersions_loopOf_done (env : Env) (O : GoString) (u : URL) (C : GoString)
    (h : (loopOf env O u C).died = none) :
    destroyOlderVersions env O (traceUpToDo env.projectId O u C) =
      .ok (loopOf env O u C).trace () := by
  have h2 := destroyOlderVersions_done env O (traceUpToDo env.projectId O u C)
    (by rw [listRequest_eq]; exact h)
  rw [listRequest_eq] at h2
  exact h2

theorem Luigi_empty (env : Env) (m : PubSubMessage) (h0 : m.Data = []) :
    Luigi env m = { trace := [], outcome := .fatal .emptyOrgName } := by
  simp [Luigi, string, lit_empty, h0]

theorem Luigi_setup_error (env : Env) (m : PubSubMessage) (err : GoError)
    (h0 : m.Data ≠ []) (h1 : env.NewClient = some err) :
    Luigi env m = { trace := [.NewClient], outcome := .fatal (.setupClient err) } := by
  simp [Luigi, string, lit_empty, h0, h1]

theorem Luigi_access_error (env : Env) (m : PubSubMessage) (err : GoError)
    (h0 : m.Data ≠ []) (h1 : env.NewClient = none)
    (h2 : env.AccessSecretVersion [.NewClient]
      { Name := adminTokenAddress env.projectId m.Data } = .error err) :
    Luigi env m =
      { trace := [.NewClient,
          .AccessSecretVersion { Name := adminTokenAddress env.projectId m.Data }],
        outcome := .fatal (.accessSecretVersion err) } := by
  have hf := fetch_error env m.Data [.NewClient] err (by rw [accessRequest_eq]; exact h2)
  rw [accessRequest_eq] at hf
  have hf2 : fetchGHAccessToken env m.Data [.NewClient] =
      .fatal [.NewClient,
        .AccessSecretVersion { Name := adminTokenAddress env.projectId m.Data }]
        (.accessSecretVersion err) := hf
  simp [Luigi, string, lit_empty, h0, h1, hf2]

theorem Luigi_access_panic (env : Env) (m : PubSubMessage)
    (h0 : m.Data ≠ []) (h1 : env.NewClient = none)
    (h2 : env.AccessSecretVersion [.NewClient]
      { Name := adminTokenAddress env.projectId m.Data } = .ok { Payload := none }) :
    Luigi env m =
      { trace := [.NewClient,
          .AccessSecretVersion { Name := adminTokenAddress env.projectId m.Data }, .Close],
        outcome := .panicked } := by
  have hf := fetch_panic env m.Data [.NewClient] (by rw [accessRequest_eq]; exact h2)
  rw [accessRequest_eq] at hf
  have hf2 : fetchGHAccessToken env m.Data [.NewClient] =
      .panic [.NewClient,
        .AccessSecretVersion { Name := adminTokenAddress env.projectId m.Data }] := hf
  simp [Luigi, string, lit_empty, h0, h1, hf2]

theorem Luigi_create_error (env : Env) (m : PubSubMessage) (C : List UInt8) (err : GoError)
    (hr : ReadsCredential env m C)
    (h3 : env.NewRequestURL (lit "POST") (exchangeURLText m.Data) = .error err) :
    Luigi env m =
      { trace := [.NewClient,
          .AccessSecretVersion { Name := adminTokenAddress env.projectId m.Data }],
        outcome := .fatal (.createRequest err) } := by
  have hf := fetch_read env m C hr
  have hq := request_create_error env C m.Data
    [.NewClient, .AccessSecretVersion { Name := adminTokenAddress env.projectId m.Data }] err
    (by rw [registrationRequest_eq, h3])
  simp [Luigi, string, lit_empty, hr.1, hr.2.1, hf, hq]

theorem Luigi_do_error (env : Env) (m : PubSubMessage) (C : List UInt8) (u : URL)
    (err : GoError) (hb : BuildsRequest env m C u)
    (h4 : env.Do
      [.NewClient, .AccessSecretVersion { Name := adminTokenAddress env.projectId m.Data }]
      (exchangeRequest u C) = .error err) :
    Luigi env m =
      { trace := traceUpToDo env.projectId m.Data u C,
        outcome := .fatal (.requestRegistrationToken err) } := by
  have hf := fetch_read env m C hb.1
  have hq : requestRegistrationToken env C m.Data
      [.NewClient, .AccessSecretVersion { Name := adminTokenAddress env.projectId m.Data }] =
      .fatal (traceUpToDo env.projectId m.Data u C) (.requestRegistrationToken err) :=
    request_do_error env C m.Data _ _ err (registrationRequest_built env m C u hb) h4
  simp [Luigi, string, lit_empty, hb.1.1, hb.1.2.1, hf, hq]

theorem Luigi_read_error (env : Env) (m : PubSubMessage) (C : List UInt8) (u : URL)
    (status : Nat) (err : GoError) (hb : BuildsRequest env m C u)
    (h4 : env.Do
      [.NewClient, .AccessSecretVersion { Name := adminTokenAddress env.projectId m.Data }]
      (exchangeRequest u C) = .ok { StatusCode := status, Body := .failure err }) :
    Luigi env m =
      { trace := traceUpToDo env.projectId m.Data u C,
        outcome := .fatal (.readBody err) } := by
  have hf := fetch_read env m C hb.1
  have hq : requestRegistrationToken env C m.Data
      [.NewClient, .AccessSecretVersion { Name := adminTokenAddress env.projectId m.Data }] =
      .fatal (traceUpToDo env.projectId m.Data u C) (.readBody err) :=
    request_read_error env C m.Data _ _ status err (registrationRequest_built env m C u hb) h4
  simp [Luigi, string, lit_empty, hb.1.1, hb.1.2.1, hf, hq]

theorem request_exchanged (env : Env) (m : PubSubMessage) (C : List UInt8) (u : URL)
    (status : Nat) (B : List UInt8) (hx : ExchangesToken env m C u status B) :
    requestRegistrationToken env C m.Data
      [.NewClient, .AccessSecretVersion { Name := adminTokenAddress env.projectId m.Data }] =
      .ok (traceUpToDo env.projectId m.Data u C) B :=
  request_ok env C m.Data _ _ status B (registrationRequest_built env m C u hx.1) hx.2

theorem Luigi_loop_died (env : Env) (m : PubSubMessage) (C : List UInt8) (u : URL)
    (status : Nat) (B : List UInt8) (site : Fatal) (hx : ExchangesToken env m C u status B)
    (h5 : (loopOf env m.Data u C).died = some site) :
    Luigi env m = { trace := (loopOf env m.Data u C).trace, outcome := .fatal site } := by
  have hf := fetch_read env m C hx.1.1
  have hq := request_exchanged env m C u status B hx
  have hd := destroyOlderVersions_loopOf_died env m.Data u C site h5
  simp [Luigi, string, lit_empty, hx.1.1.1, hx.1.1.2.1, hf, hq, hd]

theorem Luigi_add_error (env : Env) (m : PubSubMessage) (C : List UInt8) (u : URL)
    (status : Nat) (B : List UInt8) (err : GoError) (hx : ExchangesToken env m C u status B)
    (h5 : (loopOf env m.Data u C).died = none)
    (h6 : env.AddSecretVersion (loopOf env m.Data u C).trace
      { Parent := registrationTokenAddress env.projectId m.Data,
        Payload := { Data := B } } = .error err) :
    Luigi env m =
      { trace := (loopOf env m.Data u C).trace ++
          [.AddSecretVersion ⟨registrationTokenAddress env.projectId m.Data, ⟨B⟩⟩],
        outcome := .fatal (.addSecretVersion err) } := by
  have hf := fetch_read env m C hx.1.1
  have hq := request_exchanged env m C u status B hx
  have hd := destroyOlderVersions_loopOf_done env m.Data u C h5
  have hs := save_error env m.Data B (loopOf env m.Data u C).trace err
    (by rw [addRequest_eq]; exact h6)
  rw [addRequest_eq] at hs
  simp [Luigi, string, lit_empty, hx.1.1.1, hx.1.1.2.1, hf, hq, hd, hs]

theorem Luigi_done (env : Env) (m : PubSubMessage) (C : List UInt8) (u : URL)
    (status : Nat) (B : List UInt8) (v : SecretVersion)
    (hx : ExchangesToken env m C u status B)
    (h5 : (loopOf env m.Data u C).died = none)
    (h6 : env.AddSecretVersion (loopOf env m.Data u C).trace
      { Parent := registrationTokenAddress env.projectId m.Data,
        Payload := { Data := B } } = .ok v) :
    Luigi env m =
      { trace := (loopOf env m.Data u C).trace ++
          [.AddSecretVersion ⟨registrationTokenAddress env.projectId m.Data, ⟨B⟩⟩, .Close],
        outcome := .returned none } := by
  have hf := fetch_read env m C hx.1.1
  have hq := request_exchanged env m C u status B hx
  have hd := destroyOlderVersions_loopOf_done env m.Data u C h5
  have hs := save_ok env m.Data B (loopOf env m.Data u C).trace v
    (by rw [addRequest_eq]; exact h6)
  rw [addRequest_eq] at hs
  simp [Luigi, string, lit_empty, hx.1.1.1, hx.1.1.2.1, hf, hq, hd, hs]

/-- Case analysis of a run of `Luigi`: the ten ways an invocation can go, each
with the answers of the environment that lead to it. -/
theorem Luigi_cases (env : Env) (m : PubSubMessage) (P : Run → Prop)
    (hempty : m.Data = [] → P { trace := [], outcome := .fatal .emptyOrgName })
    (hsetup : ∀ err, m.Data ≠ [] → env.NewClient = some err →
      P { trace := [.NewClient], outcome := .fatal (.setupClient err) })
    (haccess : ∀ err, m.Data ≠ [] → env.NewClient = none →
      env.AccessSecretVersion [.NewClient]
        { Name := adminTokenAddress env.projectId m.Data } = .error err →
      P { trace := [.NewClient,
            .AccessSecretVersion { Name := adminTokenAddress env.projectId m.Data }],
          outcome := .fatal (.accessSecretVersion err) })
    (hpanic : m.Data ≠ [] → env.NewClient = none →
      env.AccessSecretVersion [.NewClient]
        { Name := adminTokenAddress env.projectId m.Data } = .ok { Payload := none } →
      P { trace := [.NewClient,
            .AccessSecretVersion { Name := adminTokenAddress env.projectId m.Data }, .Close],
          outcome := .panicked })
    (hcreate : ∀ C err, ReadsCredential env m C →
      env.NewRequestURL (lit "POST") (exchangeURLText m.Data) = .error err →
      P { trace := [.NewClient,
            .AccessSecretVersion { Name := adminTokenAddress env.projectId m.Data }],
          outcome := .fatal (.createRequest err) })
    (hdo : ∀ C u err, BuildsRequest env m C u →
      env.Do
        [.NewClient, .AccessSecretVersion { Name := adminTokenAddress env.projectId m.Data }]
        (exchangeRequest u C) = .error err →
      P { trace := traceUpToDo env.projectId m.Data u C,
          outcome := .fatal (.requestRegistrationToken err) })
    (hread : ∀ C u status err, BuildsRequest env m C u →
      env.Do
        [.NewClient, .AccessSecretVersion { Name := adminTokenAddress env.projectId m.Data }]
        (exchangeRequest u C) = .ok { StatusCode := status, Body := .failure err } →
      P { trace := traceUpToDo env.projectId m.Data u C, outcome := .fatal (.readBody err) })
    (hloop : ∀ C u status B site, ExchangesToken env m C u status B →
      (loopOf env m.Data u C).died = some site →
      P { trace := (loopOf env m.Data u C).trace, outcome := .fatal site })
    (hadd : ∀ C u status B err, ExchangesToken env m C u status B →
      (loopOf env m.Data u C).died = none →
      env.AddSecretVersion (loopOf env m.Data u C).trace
        { Parent := registrationTokenAddress env.projectId m.Data,
          Payload := { Data := B } } = .error err →
      P { trace := (loopOf env m.Data u C).trace ++
            [.AddSecretVersion ⟨registrationTokenAddress env.projectId m.Data, ⟨B⟩⟩],
          outcome := .fatal (.addSecretVersion err) })
    (hdone : ∀ C u status B v, ExchangesToken env m C u status B →
      (loopOf env m.Data u C).died = none →
      env.AddSecretVersion (loopOf env m.Data u C).trace
        { Parent := registrationTokenAddress env.projectId m.Data,
          Payload := { Data := B } } = .ok v →
      P { trace := (loopOf env m.Data u C).trace ++
            [.AddSecretVersion ⟨registrationTokenAddress env.projectId m.Data, ⟨B⟩⟩, .Close],
          outcome := .returned none }) :
    P (Luigi env m) := by
  by_cases h0 : m.Data = []
  · rw [Luigi_empty env m h0]; exact hempty h0
  cases h1 : env.NewClient with
  | some err => rw [Luigi_setup_error env m err h0 h1]; exact hsetup err h0 h1
  | none =>
  cases h2 : env.AccessSecretVersion [.NewClient]
    { Name := adminTokenAddress env.projectId m.Data } with
  | error err => rw [Luigi_access_error env m err h0 h1 h2]; exact haccess err h0 h1 h2
  | ok r =>
  obtain ⟨p⟩ := r
  cases p with
  | none => rw [Luigi_access_panic env m h0 h1 h2]; exact hpanic h0 h1 h2
  | some p =>
  obtain ⟨C⟩ := p
  have hr : ReadsCredential env m C := ⟨h0, h1, h2⟩
  cases h3 : env.NewRequestURL (lit "POST") (exchangeURLText m.Data) with
  | error err => rw [Luigi_create_error env m C err hr h3]; exact hcreate C err hr h3
  | ok u =>
  have hb : BuildsRequest env m C u := ⟨hr, h3⟩
  cases h4 : env.Do
    [.NewClient, .AccessSecretVersion { Name := adminTokenAddress env.projectId m.Data }]
    (exchangeRequest u C) with
  | error err => rw [Luigi_do_error env m C u err hb h4]; exact hdo C u err hb h4
  | ok resp =>
  obtain ⟨status, rb⟩ := resp
  cases rb with
  | failure err =>
    rw [Luigi_read_error env m C u status err hb h4]; exact hread C u status err hb h4
  | data B =>
  have hx : ExchangesToken env m C u status B := ⟨hb, h4⟩
  cases h5 : (loopOf env m.Data u C).died with
  | some site =>
    rw [Luigi_loop_died env m C u status B site hx h5]; exact hloop C u status B site hx h5
  | none =>
  cases h6 : env.AddSecretVersion (loopOf env m.Data u C).trace
    { Parent := registrationTokenAddress env.projectId m.Data, Payload := { Data := B } } with
  | error err =>
    rw [Luigi_add_error env m C u status B err hx h5 h6]
    exact hadd C u status B err hx h5 h6
  | ok v =>
    rw [Luigi_done env m C u status B v hx h5 h6]
    exact hdone C u status B v hx h5 h6

theorem loopOf_trace (env : Env) (O : GoString) (u : URL) (C : GoString) :
    ∃ ds : Trace, (loopOf env O u C).trace = traceUpToList env.projectId O u C ++ ds ∧
      ∀ c ∈ ds, c.isDestroy = true :=
  destroyLoop_trace env _ _

theorem loopOf_done (env : Env) (O : GoString) (u : URL) (C : GoString)
    (vs : List SecretVersion)
    (h5 : env.ListSecretVersions (traceUpToDo env.projectId O u C)
      { Parent := registrationTokenAddress env.projectId O } = vs.map .version)
    (h6 : DestroysSucceed env (traceUpToList env.projectId O u C) vs) :
    loopOf env O u C =
      { trace := traceUpToList env.projectId O u C ++ destroyCalls vs, rest := [],
        died := none } := by
  unfold loopOf
  rw [h5]
  exact destroyLoop_done env vs _ h6

/-- A run in which all steps succeed, written out. -/
theorem Luigi_success (env : Env) (m : PubSubMessage) (C : List UInt8) (u : URL)
    (status : Nat) (B : List UInt8) (vs : List SecretVersion) (v : SecretVersion)
    (hx : ExchangesToken env m C u status B)
    (h5 : env.ListSecretVersions (traceUpToDo env.projectId m.Data u C)
      { Parent := registrationTokenAddress env.projectId m.Data } = vs.map .version)
    (h6 : DestroysSucceed env (traceUpToList env.projectId m.Data u C) vs)
    (h7 : env.AddSecretVersion (traceUpToList env.projectId m.Data u C ++ destroyCalls vs)
      { Parent := registrationTokenAddress env.projectId m.Data,
        Payload := { Data := B } } = .ok v) :
    Luigi env m =
      { trace := traceUpToList env.projectId m.Data u C ++ destroyCalls vs ++
          [.AddSecretVersion ⟨registrationTokenAddress env.projectId m.Data, ⟨B⟩⟩, .Close],
        outcome := .returned none } := by
  have hl := loopOf_done env m.Data u C vs h5 h6
  have h := Luigi_done env m C u status B v hx (by rw [hl]) (by rw [hl]; exact h7)
  rw [hl] at h
  exact h

/-- A run that returns went through every step successfully. -/
theorem Luigi_success_inv (env : Env) (m : PubSubMessage) (e : Option GoError)
    (h : (Luigi env m).outcome = .returned e) :
    e = none ∧ AllStepsSucceed env m := by
  revert h
  refine Luigi_cases env m (fun r => r.outcome = .returned e → e = none ∧ AllStepsSucceed env m)
    ?_ ?_ ?_ ?_ ?_ ?_ ?_ ?_ ?_ ?_
  · intro _ h; cases h
  · intro _ _ _ h; cases h
  · intro _ _ _ _ h; cases h
  · intro _ _ _ h; cases h
  · intro _ _ _ _ h; cases h
  · intro _ _ _ _ _ h; cases h
  · intro _ _ _ _ _ _ h; cases h
  · intro _ _ _ _ _ _ _ h; cases h
  · intro _ _ _ _ _ _ _ _ h; cases h
  · intro C u status B v hx hl hadd h
    obtain ⟨vs, hv, hs⟩ := destroyLoop_done_inv env _ _ hl
    have hl2 := loopOf_done env m.Data u C vs hv hs
    refine ⟨by cases h; rfl, C, u, status, B, vs, v, hx, hv, hs, ?_⟩
    rw [hl2] at hadd
    exact hadd

/-! ## The store model -/

theorem replay_append (s : Store) (t1 t2 : Trace) :
    s.replay (t1 ++ t2) = (s.replay t1).replay t2 := by
  simp [Store.replay, List.foldl_append]

theorem replay_cons (s : Store) (c : Call) (t : Trace) :
    s.replay (c :: t) = (s.apply c).replay t := rfl

theorem replay_traceUpToList (s : Store) (P O : GoString) (u : URL) (C : GoString) :
    s.replay (traceUpToList P O u C) = s := rfl

theorem destroyAll_nil (s : Store) : s.destroyAll [] = s := by
  simp [Store.destroyAll]

theorem destroy_destroyAll (s : Store) (n : GoString) (ns : List GoString) :
    (s.destroy n).destroyAll ns = s.destroyAll (n :: ns) := by
  simp only [Store.destroy, Store.destroyAll, List.map_map]
  apply List.map_congr_left
  intro w _
  by_cases h1 : w.Name = n <;> by_cases h2 : w.Name ∈ ns <;> simp [h1, h2]

theorem destroyAll_destroyAll (s : Store) (ns ms : List GoString) :
    (s.destroyAll ns).destroyAll ms = s.destroyAll (ns ++ ms) := by
  simp only [Store.destroyAll, List.map_map]
  apply List.map_congr_left
  intro w _
  by_cases h1 : w.Name ∈ ns <;> by_cases h2 : w.Name ∈ ms <;> simp [h1, h2]

/-- Replaying a trace without add-version calls destroys the versions its
destroy calls target, and changes nothing else. -/
theorem replay_no_add (t : Trace) (s : Store) (h : ∀ c ∈ t, c.isAdd = false) :
    s.replay t = s.destroyAll (destroyNames t) := by
  induction t generalizing s with
  | nil => simp [Store.replay, destroyNames, destroyAll_nil]
  | cons c t ih =>
    have ht : ∀ c ∈ t, c.isAdd = false := fun c hc => h c (List.mem_cons_of_mem _ hc)
    rw [replay_cons, ih _ ht]
    cases c with
    | DestroySecretVersion req =>
      simp only [Store.apply]
      rw [destroy_destroyAll]
      rfl
    | AddSecretVersion req =>
      have := h (.AddSecretVersion req) (List.mem_cons_self _ _)
      simp [Call.isAdd] at this
    | NewClient => rfl
    | AccessSecretVersion req => rfl
    | Do req => rfl
    | ListSecretVersions req => rfl
    | Close => rfl

theorem destroyAll_map_Name (s : Store) (ns : List GoString) :
    (s.destroyAll ns).map (fun w => w.Name) = s.map (fun w => w.Name) := by
  simp only [Store.destroyAll, List.map_map]
  apply List.map_congr_left
  intro w _
  by_cases h : w.Name ∈ ns <;> simp [h]

theorem destroyAll_map_Secret (s : Store) (ns : List GoString) :
    (s.destroyAll ns).map (fun w => w.Secret) = s.map (fun w => w.Secret) := by
  simp only [Store.destroyAll, List.map_map]
  apply List.map_congr_left
  intro w _
  by_cases h : w.Name ∈ ns <;> simp [h]

theorem destroyAll_map_Payload (s : Store) (ns : List GoString) :
    (s.destroyAll ns).map (fun w => w.Payload) = s.map (fun w => w.Payload) := by
  simp only [Store.destroyAll, List.map_map]
  apply List.map_congr_left
  intro w _
  by_cases h : w.Name ∈ ns <;> simp [h]

theorem mem_destroyNames_destroyCalls (vs : List SecretVersion) (v : SecretVersion)
    (hv : v ∈ vs) (hs : v.State ≠ .DESTROYED) : v.Name ∈ destroyNames (destroyCalls vs) := by
  simp only [destroyNames, destroyCalls, List.mem_filterMap, List.mem_map, List.mem_filter]
  exact ⟨.DestroySecretVersion { Name := v.Name }, ⟨v, ⟨hv, by simpa using hs⟩, rfl⟩, rfl⟩

theorem destroyNames_append (t1 t2 : Trace) :
    destroyNames (t1 ++ t2) = destroyNames t1 ++ destroyNames t2 := by
  simp [destroyNames, List.filterMap_append]

theorem traceUpToList_no_add (P O : GoString) (u : URL) (C : GoString) :
    ∀ c ∈ traceUpToList P O u C, c.isAdd = false := by
  intro c hc
  simp only [traceUpToList, List.mem_cons, List.mem_singleton, List.not_mem_nil, or_false] at hc
  rcases hc with rfl | rfl | rfl | rfl <;> rfl

theorem destroyCalls_no_add (vs : List SecretVersion) :
    ∀ c ∈ destroyCalls vs, c.isAdd = false := by
  intro c hc
  have := destroyCalls_isDestroy vs c hc
  cases c <;> simp_all [Call.isDestroy, Call.isAdd]

theorem destroyAll_append (a b : Store) (ns : List GoString) :
    Store.destroyAll (a ++ b) ns = a.destroyAll ns ++ b.destroyAll ns := by
  simp [Store.destroyAll]

/-- The store after a run that returns: the versions it held, those of the
registration-token secret all destroyed, followed by one new enabled version
that carries the body read in the exchange step. -/
theorem rotate_store (env : Env) (m : PubSubMessage) (s : Store)
    (hstore : ListsStore env s) (hok : (Luigi env m).outcome = .returned none) :
    ∃ (C : List UInt8) (u : URL) (status : Nat) (B : List UInt8) (names : List GoString)
      (new : StoredVersion) (pre : Trace),
      ExchangesToken env m C u status B ∧
      (Luigi env m).trace = pre ++
        [.AddSecretVersion ⟨registrationTokenAddress env.projectId m.Data, ⟨B⟩⟩, .Close] ∧
      (∀ c ∈ pre, c.isAdd = false ∧ c ≠ .Close) ∧
      s.replay (Luigi env m).trace = s.destroyAll names ++ [new] ∧
      (∀ w ∈ s.destroyAll names,
        w.Secret = registrationTokenAddress env.projectId m.Data → w.State = .DESTROYED) ∧
      new.Secret = registrationTokenAddress env.projectId m.Data ∧
      new.State = .ENABLED ∧ new.Payload = B := by
  obtain ⟨_, C, u, status, B, vs, v, hx, h5, h6, h7⟩ := Luigi_success_inv env m none hok
  have hrun := Luigi_success env m C u status B vs v hx h5 h6 h7
  have hpre : ∀ c ∈ traceUpToList env.projectId m.Data u C ++ destroyCalls vs,
      c.isAdd = false := by
    intro c hc
    rcases List.mem_append.mp hc with hc | hc
    · exact traceUpToList_no_add _ _ _ _ c hc
    · exact destroyCalls_no_add vs c hc
  have hclose : ∀ c ∈ traceUpToList env.projectId m.Data u C ++ destroyCalls vs,
      c ≠ .Close := by
    intro c hc
    rcases List.mem_append.mp hc with hc | hc
    · simp only [traceUpToList, List.mem_cons, List.mem_singleton, List.not_mem_nil,
        or_false] at hc
      rcases hc with rfl | rfl | rfl | rfl <;> simp
    · have := destroyCalls_isDestroy vs c hc
      rintro rfl
      simp [Call.isDestroy] at this
  refine ⟨C, u, status, B,
    destroyNames (traceUpToList env.projectId m.Data u C ++ destroyCalls vs),
    { Secret := registrationTokenAddress env.projectId m.Data,
      Name := registrationTokenAddress env.projectId m.Data ++ lit "/versions/" ++
        lit (toString (((s.destroyAll
          (destroyNames (traceUpToList env.projectId m.Data u C ++ destroyCalls vs))).filter
            (fun w => w.Secret = registrationTokenAddress env.projectId m.Data)).length + 1)),
      State := .ENABLED, Payload := B },
    traceUpToList env.projectId m.Data u C ++ destroyCalls vs, hx, hrun ▸ rfl,
    fun c hc => ⟨hpre c hc, hclose c hc⟩, ?_, ?_, rfl, rfl, rfl⟩
  · rw [hrun, replay_append, replay_no_add _ _ hpre]
    rfl
  · intro w hw hsec
    simp only [Store.destroyAll, List.mem_map] at hw
    obtain ⟨w0, hw0, rfl⟩ := hw
    by_cases hn : w0.Name ∈
        destroyNames (traceUpToList env.projectId m.Data u C ++ destroyCalls vs)
    · simp [hn]
    · simp only [hn, if_false] at hsec ⊢
      by_contra hlive
      apply hn
      have hmem : ({ Name := w0.Name, State := w0.State } : SecretVersion) ∈
          (s.replay (traceUpToDo env.projectId m.Data u C)).list
            (registrationTokenAddress env.projectId m.Data) := by
        show _ ∈ s.list _
        simp only [Store.list, List.mem_map, List.mem_filter]
        exact ⟨w0, ⟨hw0, by simpa using hsec⟩, rfl⟩
      have := hstore _ { Parent := registrationTokenAddress env.projectId m.Data } _ hmem
      rw [h5] at this
      simp only [List.mem_map, NextResult.version.injEq, exists_eq_right] at this
      rw [destroyNames_append]
      exact List.mem_append_right _
        (mem_destroyNames_destroyCalls vs _ this hlive)

theorem storeEnv_lists (P : GoString) (s : Store) (cred : List UInt8) (status : Nat)
    (body : List UInt8) (failAt : Option Nat) (failAdd : Bool) :
    ListsStore (storeEnv P s cred status body failAt failAdd) s := by
  intro t req v hv
  exact List.mem_map_of_mem _ hv

theorem no_add_dropLast (t : Trace) (h : ∀ c ∈ t, c.isAdd = false) :
    ∀ c ∈ t.dropLast, c.isAdd = false :=
  fun c hc => h c (List.dropLast_subset t hc)

theorem loopOf_no_add (env : Env) (O : GoString) (u : URL) (C : GoString) :
    ∀ c ∈ (loopOf env O u C).trace, c.isAdd = false := by
  obtain ⟨ds, ht, hds⟩ := loopOf_trace env O u C
  rw [ht]
  intro c hc
  rcases List.mem_append.mp hc with hc | hc
  · exact traceUpToList_no_add _ _ _ _ c hc
  · have := hds c hc
    cases c <;> simp_all [Call.isDestroy, Call.isAdd]

/-- The trace of an invocation that dies in the destroy loop or at the
add-version call: it holds no add-version call, except that a run that dies at
the add-version call ends with that call. -/
theorem aborted_trace (env : Env) (m : PubSubMessage)
    (h : ∃ e, (Luigi env m).outcome = .fatal (.listSecretVersions e) ∨
      (Luigi env m).outcome = .fatal (.destroySecretVersion e) ∨
      (Luigi env m).outcome = .fatal (.addSecretVersion e)) :
    (∀ c ∈ (Luigi env m).trace, c.isAdd = false) ∨
    ((∃ e, (Luigi env m).outcome = .fatal (.addSecretVersion e)) ∧
      ∃ pre req, (Luigi env m).trace = pre ++ [.AddSecretVersion req] ∧
        ∀ c ∈ pre, c.isAdd = false) := by
  revert h
  refine Luigi_cases env m (fun r =>
    (∃ e, r.outcome = .fatal (.listSecretVersions e) ∨
      r.outcome = .fatal (.destroySecretVersion e) ∨
      r.outcome = .fatal (.addSecretVersion e)) →
    ((∀ c ∈ r.trace, c.isAdd = false) ∨
      ((∃ e, r.outcome = .fatal (.addSecretVersion e)) ∧
        ∃ pre req, r.trace = pre ++ [.AddSecretVersion req] ∧ ∀ c ∈ pre, c.isAdd = false)))
    ?_ ?_ ?_ ?_ ?_ ?_ ?_ ?_ ?_ ?_
  · rintro _ ⟨e, h | h | h⟩ <;> cases h
  · rintro _ _ _ ⟨e, h | h | h⟩ <;> cases h
  · rintro _ _ _ _ ⟨e, h | h | h⟩ <;> cases h
  · rintro _ _ _ ⟨e, h | h | h⟩ <;> cases h
  · rintro _ _ _ _ ⟨e, h | h | h⟩ <;> cases h
  · rintro _ _ _ _ _ ⟨e, h | h | h⟩ <;> cases h
  · rintro _ _ _ _ _ _ ⟨e, h | h | h⟩ <;> cases h
  · rintro C u status B site _ _ _
    exact Or.inl (loopOf_no_add env m.Data u C)
  · rintro C u status B err _ _ _ _
    exact Or.inr ⟨⟨err, rfl⟩, _, _, rfl, loopOf_no_add env m.Data u C⟩
  · rintro _ _ _ _ _ _ _ _ ⟨e, h | h | h⟩ <;> cases h


/-! ## The parser model on plain organization names -/

theorem cut_of_not_mem (s : List UInt8) (sep : UInt8) (h : sep ∉ s) : cut s sep = (s, []) := by
  induction s with
  | nil => rfl
  | cons c s ih =>
    have hc : c ≠ sep := fun e => h (e ▸ List.mem_cons_self _ _)
    have hs : sep ∉ s := fun e => h (List.mem_cons_of_mem _ e)
    simp [cut, hc, ih hs]

theorem cut_append_sep (a b : List UInt8) (sep : UInt8) (h : sep ∉ a) :
    cut (a ++ sep :: b) sep = (a, b) := by
  induction a with
  | nil => simp [cut]
  | cons c a ih =>
    have hc : c ≠ sep := fun e => h (e ▸ List.mem_cons_self _ _)
    have hs : sep ∉ a := fun e => h (List.mem_cons_of_mem _ e)
    simp [cut, hc, ih hs]

theorem getSchemeFrom_letters (l acc rest : List UInt8) (h : ∀ c ∈ l, isLetter c = true)
    (hne : (acc ++ l).isEmpty = false) :
    getSchemeFrom acc (l ++ 58 :: rest) = some (acc ++ l, rest) := by
  induction l generalizing acc with
  | nil =>
    have h1 : isLetter 58 = false := by decide
    have h2 : (isDigit 58 || (58 : UInt8) == 43 || (58 : UInt8) == 45 || (58 : UInt8) == 46) =
        false := by decide
    have h3 : ((58 : UInt8) == 58) = true := by decide
    simp only [List.append_nil] at hne
    simp only [List.nil_append, List.append_nil, getSchemeFrom, h1, h2, h3, hne,
      Bool.false_eq_true, if_false, if_true]
  | cons c l ih =>
    have hc : isLetter c = true := h c (List.mem_cons_self _ _)
    have hl : ∀ d ∈ l, isLetter d = true := fun d hd => h d (List.mem_cons_of_mem _ hd)
    have := ih (acc ++ [c]) hl (by simp)
    simp only [List.cons_append, getSchemeFrom, hc, if_true]
    show getSchemeFrom (acc ++ [c]) (l ++ 58 :: rest) = _
    rw [this]
    simp

theorem unescapeFrom_plain (s : List UInt8) (h : (37 : UInt8) ∉ s) :
    unescapeFrom .plain s = .ok s := by
  induction s with
  | nil => rfl
  | cons c s ih =>
    have hc : c ≠ 37 := fun e => h (e ▸ List.mem_cons_self _ _)
    have hs : (37 : UInt8) ∉ s := fun e => h (List.mem_cons_of_mem _ e)
    simp [unescapeFrom, hc, ih hs]

theorem escape_of_plain (s : List UInt8) (mode : encoding)
    (h : ∀ c ∈ s, shouldEscape c mode = false) : escape s mode = s := by
  induction s with
  | nil => rfl
  | cons c s ih =>
    have hc := h c (List.mem_cons_self _ _)
    have hs : ∀ d ∈ s, shouldEscape d mode = false := fun d hd => h d (List.mem_cons_of_mem _ hd)
    have := ih hs
    simp only [escape] at this ⊢
    simp [List.flatMap_cons, hc, this]

theorem unreserved_props : ∀ c : UInt8, isUnreserved c = true →
    c ≠ 35 ∧ c ≠ 63 ∧ c ≠ 37 ∧ (c < 32 || c == 127) = false ∧
      shouldEscape c .encodePath = false := by
  rintro ⟨n⟩
  revert n
  decide

theorem exchangeURLText_bytes (O : GoString) (h : ∀ c ∈ O, isUnreserved c = true) :
    ∀ c ∈ exchangeURLText O, c ≠ 35 ∧ c ≠ 63 ∧ c ≠ 37 ∧ (c < 32 || c == 127) = false ∧
      shouldEscape c .encodePath = false := by
  have h1 : ∀ c ∈ lit "https://api.github.com/orgs/", c ≠ 35 ∧ c ≠ 63 ∧ c ≠ 37 ∧
      (c < 32 || c == 127) = false ∧ shouldEscape c .encodePath = false := by decide
  have h2 : ∀ c ∈ lit "/actions/runners/registration-token", c ≠ 35 ∧ c ≠ 63 ∧ c ≠ 37 ∧
      (c < 32 || c == 127) = false ∧ shouldEscape c .encodePath = false := by decide
  intro c hc
  simp only [exchangeURLText, List.mem_append] at hc
  rcases hc with (hc | hc) | hc
  · exact h1 c hc
  · exact unreserved_props c (h c hc)
  · exact h2 c hc

theorem exchangeURLText_split (O : GoString) :
    exchangeURLText O = lit "https" ++ 58 :: 47 :: 47 :: (lit "api.github.com" ++
      47 :: (lit "orgs/" ++ O ++ lit "/actions/runners/registration-token")) := by
  have h : lit "https://api.github.com/orgs/" =
      lit "https" ++ 58 :: 47 :: 47 :: (lit "api.github.com" ++ 47 :: lit "orgs/") := by decide
  simp only [exchangeURLText, h, List.append_assoc, List.cons_append]

theorem exchangePath_split (O : GoString) :
    lit "/orgs/" ++ O ++ lit "/actions/runners/registration-token" =
      47 :: (lit "orgs/" ++ O ++ lit "/actions/runners/registration-token") := by
  have h : lit "/orgs/" = 47 :: lit "orgs/" := by decide
  simp only [h, List.cons_append]

/-- On an organization name of unreserved characters the parser model accepts
the documented URL text and reads it as the documented URL. -/
theorem goParse_plain (O : GoString) (h : ∀ c ∈ O, isUnreserved c = true) :
    goParse (exchangeURLText O) = .ok (exchangeURL O) := by
  have hb := exchangeURLText_bytes O h
  have h35 : (35 : UInt8) ∉ exchangeURLText O := fun hm => (hb 35 hm).1 rfl
  have h63 : (63 : UInt8) ∉ exchangeURLText O := fun hm => (hb 63 hm).2.1 rfl
  have hcut : cut (exchangeURLText O) 35 = (exchangeURLText O, []) := cut_of_not_mem _ _ h35
  have hctl : stringContainsCTLByte (exchangeURLText O) = false := by
    rw [stringContainsCTLByte, List.any_eq_false]
    intro c hc
    simpa using (hb c hc).2.2.2.1
  have hsplit := exchangeURLText_split O
  have hsch : getSchemeFrom [] (exchangeURLText O) =
      some (lit "https", 47 :: 47 :: (lit "api.github.com" ++
        47 :: (lit "orgs/" ++ O ++ lit "/actions/runners/registration-token"))) := by
    rw [hsplit]
    exact getSchemeFrom_letters (lit "https") [] _ (by decide) (by decide)
  have hsub : ∀ c ∈ (47 :: 47 :: (lit "api.github.com" ++
      47 :: (lit "orgs/" ++ O ++ lit "/actions/runners/registration-token")) : List UInt8),
      c ∈ exchangeURLText O := by
    intro c hc
    rw [hsplit]
    exact List.mem_append_right _ (List.mem_cons_of_mem _ hc)
  have h63r : (63 : UInt8) ∉ (47 :: 47 :: (lit "api.github.com" ++
      47 :: (lit "orgs/" ++ O ++ lit "/actions/runners/registration-token")) : List UInt8) :=
    fun hm => h63 (hsub 63 hm)
  have hcount : List.count (63 : UInt8) (47 :: 47 :: (lit "api.github.com" ++
      47 :: (lit "orgs/" ++ O ++ lit "/actions/runners/registration-token"))) = 0 :=
    List.count_eq_zero.mpr h63r
  have hcutq := cut_of_not_mem _ 63 h63r
  have hcuta : cut (lit "api.github.com" ++
      47 :: (lit "orgs/" ++ O ++ lit "/actions/runners/registration-token")) 47 =
      (lit "api.github.com", lit "orgs/" ++ O ++ lit "/actions/runners/registration-token") :=
    cut_append_sep _ _ 47 (by decide)
  have hdrop : List.drop (lit "api.github.com").length (lit "api.github.com" ++
      47 :: (lit "orgs/" ++ O ++ lit "/actions/runners/registration-token")) =
      lit "/orgs/" ++ O ++ lit "/actions/runners/registration-token" := by
    rw [List.drop_left, exchangePath_split]
  have hhost : (lit "api.github.com").all isPlainHostByte = true := by decide
  have hpath : ∀ c ∈ lit "/orgs/" ++ O ++ lit "/actions/runners/registration-token",
      c ∈ exchangeURLText O := by
    intro c hc
    rw [exchangePath_split] at hc
    exact hsub c (List.mem_cons_of_mem _ (List.mem_cons_of_mem _ (List.mem_append_right _ hc)))
  have hun : unescape (lit "/orgs/" ++ O ++ lit "/actions/runners/registration-token") =
      .ok (lit "/orgs/" ++ O ++ lit "/actions/runners/registration-token") :=
    unescapeFrom_plain _ (fun hm => (hb 37 (hpath 37 hm)).2.2.1 rfl)
  have hesc : escape (lit "/orgs/" ++ O ++ lit "/actions/runners/registration-token")
      .encodePath = lit "/orgs/" ++ O ++ lit "/actions/runners/registration-token" :=
    escape_of_plain _ _ (fun c hc => (hb c (hpath c hc)).2.2.2.2)
  have hlow : toLower (lit "https") = lit "https" := by decide
  simp only [goParse, hcut, hctl, hsch, hcount, hcutq, hcuta, hdrop, hhost, hun, hesc, hlow,
    Bool.false_eq_true, if_false, if_true, Bool.and_false, Bool.not_true, beq_iff_eq,
    Nat.zero_ne_one, decide_False, exchangeURL, Nat.reduceEqDiff, Nat.reduceBEq]

/-- The documented URL reads back as the documented text. -/
theorem exchangeURL_String (O : GoString) (h : ∀ c ∈ O, isUnreserved c = true) :
    (exchangeURL O).String = exchangeURLText O := by
  have hb := exchangeURLText_bytes O h
  have hsplit := exchangeURLText_split O
  have hpath : ∀ c ∈ lit "/orgs/" ++ O ++ lit "/actions/runners/registration-token",
      c ∈ exchangeURLText O := by
    intro c hc
    rw [exchangePath_split] at hc
    rw [hsplit]
    exact List.mem_append_right _ (List.mem_cons_of_mem _ (List.mem_cons_of_mem _
      (List.mem_cons_of_mem _ (List.mem_append_right _ hc))))
  have hesc : escape (lit "/orgs/" ++ O ++ lit "/actions/runners/registration-token")
      .encodePath = lit "/orgs/" ++ O ++ lit "/actions/runners/registration-token" :=
    escape_of_plain _ _ (fun c hc => (hb c (hpath c hc)).2.2.2.2)
  have hne : lit "/orgs/" ++ O ++ lit "/actions/runners/registration-token" ≠ [42] := by
    rw [exchangePath_split]
    intro he
    have := (List.cons.inj he).1
    revert this
    decide
  have hep : (exchangeURL O).EscapedPath =
      lit "/orgs/" ++ O ++ lit "/actions/runners/registration-token" := by
    simp only [URL.EscapedPath, exchangeURL, ne_eq, not_true_eq_false, false_and, if_false, hne,
      hesc]
  have hs : lit "https" ≠ [] := by decide
  have hh : lit "api.github.com" ≠ [] := by decide
  have hhead : (lit "/orgs/" ++ O ++ lit "/actions/runners/registration-token").head? =
      some 47 := by
    rw [exchangePath_split]; rfl
  have hfin : lit "https" ++ [58] ++ ([47, 47] ++ lit "api.github.com") ++
      (lit "/orgs/" ++ O ++ lit "/actions/runners/registration-token") = exchangeURLText O := by
    rw [hsplit, exchangePath_split]
    simp only [List.append_assoc, List.cons_append, List.nil_append]
  rw [← hfin]
  simp only [URL.String, hep, hhead]
  simp only [exchangeURL, ne_eq, hs, hh, not_false_eq_true, if_true, true_or, not_true_eq_false,
    and_false, false_and, if_false, List.append_nil, Bool.false_eq_true, or_self]

/-! ## The first failure in the loop -/

theorem destroyLoop_enum_fails (env : Env) (L : List NextResult) (t : Trace) (i : Nat)
    (hi : i < L.length) (vs : List SecretVersion) (err : GoError)
    (hbefore : L.take i = vs.map .version) (hd : DestroysSucceed env t vs)
    (he : L[i] = .failure err) :
    destroyLoop env L t =
      { trace := t ++ destroyCalls vs, rest := L.drop (i + 1),
        died := some (.listSecretVersions err) } := by
  have hL : L = vs.map .version ++ L[i] :: L.drop (i + 1) := by
    rw [← hbefore, ← List.drop_eq_getElem_cons hi, List.take_append_drop]
  have hrun : destroyLoop env L t =
      destroyLoop env (L[i] :: L.drop (i + 1)) (t ++ destroyCalls vs) := by
    conv_lhs => rw [hL]
    exact destroyLoop_versions env vs _ _ hd
  rw [hrun, he]
  rfl

theorem destroyLoop_destroy_fails (env : Env) (L : List NextResult) (t : Trace) (i : Nat)
    (hi : i < L.length) (vs : List SecretVersion) (v : SecretVersion) (err : GoError)
    (hbefore : L.take i = vs.map .version) (hd : DestroysSucceed env t vs)
    (hv : L[i] = .version v) (hs : v.State ≠ .DESTROYED)
    (hf : env.DestroySecretVersion (t ++ destroyCalls vs) { Name := v.Name } = some err) :
    destroyLoop env L t =
      { trace := t ++ destroyCalls vs ++ [.DestroySecretVersion { Name := v.Name }],
        rest := L.drop (i + 1), died := some (.destroySecretVersion err) } := by
  have hL : L = vs.map .version ++ L[i] :: L.drop (i + 1) := by
    rw [← hbefore, ← List.drop_eq_getElem_cons hi, List.take_append_drop]
  have hrun : destroyLoop env L t =
      destroyLoop env (L[i] :: L.drop (i + 1)) (t ++ destroyCalls vs) := by
    conv_lhs => rw [hL]
    exact destroyLoop_versions env vs _ _ hd
  rw [hrun, hv]
  simp only [destroyLoop, ne_eq, hs, not_false_eq_true, if_true, hf]

/-! ## The claims -/

/-- C1: for every project identifier and every organization name (the empty one
included), `fetchGHAccessToken` addresses
`projects/P/secrets/O-admin-token/versions/latest`, and `saveRegistrationToken`
and `destroyOlderVersions` both address `projects/P/secrets/O-registration-token`;
these are the addresses of the calls the three functions issue. -/
theorem C1_secret_addresses (env : Env) (O tok : GoString) (t : Trace) :
    (accessRequest env.projectId O).Name =
        lit "projects/" ++ env.projectId ++ lit "/secrets/" ++ O ++
          lit "-admin-token/versions/latest" ∧
    (addRequest env.projectId O tok).Parent =
        lit "projects/" ++ env.projectId ++ lit "/secrets/" ++ O ++
          lit "-registration-token" ∧
    (listRequest env.projectId O).Parent =
        lit "projects/" ++ env.projectId ++ lit "/secrets/" ++ O ++
          lit "-registration-token" ∧
    (fetchGHAccessToken env O t).trace = t ++ [.AccessSecretVersion
        { Name := lit "projects/" ++ env.projectId ++ lit "/secrets/" ++ O ++
            lit "-admin-token/versions/latest" }] ∧
    (saveRegistrationToken env O tok t).trace = t ++ [.AddSecretVersion
        { Parent := lit "projects/" ++ env.projectId ++ lit "/secrets/" ++ O ++
            lit "-registration-token",
          Payload := { Data := tok } }] ∧
    ∃ ds : Trace, (destroyOlderVersions env O t).trace = t ++ .ListSecretVersions
        { Parent := lit "projects/" ++ env.projectId ++ lit "/secrets/" ++ O ++
            lit "-registration-token" } :: ds ∧ ∀ c ∈ ds, c.isDestroy = true := by
  have ha : accessRequest env.projectId O =
      { Name := lit "projects/" ++ env.projectId ++ lit "/secrets/" ++ O ++
          lit "-admin-token/versions/latest" } := by
    have := accessRequest_Name env.projectId O
    cases hr : accessRequest env.projectId O
    simp_all
  have hs : addRequest env.projectId O tok =
      { Parent := lit "projects/" ++ env.projectId ++ lit "/secrets/" ++ O ++
          lit "-registration-token", Payload := { Data := tok } } := by
    simp only [addRequest, registrationParent_eq, bytes]
  have hl : listRequest env.projectId O =
      { Parent := lit "projects/" ++ env.projectId ++ lit "/secrets/" ++ O ++
          lit "-registration-token" } := by
    simp only [listRequest, registrationParent_eq]
  refine ⟨by rw [ha], by rw [hs], by rw [hl], ?_, ?_, ?_⟩
  · rw [fetch_trace, ha]
  · rw [save_trace, hs]
  · rw [← hl]
    exact destroyOlderVersions_trace env O t

/-- C1 at the organization `acme` of project `P`. -/
theorem C1_secret_addresses_witness :
    (accessRequest (lit "P") (lit "acme")).Name =
        lit "projects/P/secrets/acme-admin-token/versions/latest" ∧
      (listRequest (lit "P") (lit "acme")).Parent =
        lit "projects/P/secrets/acme-registration-token" :=
  ⟨(C1_secret_addresses (happyEnv (lit "P") [] 201 [] []) (lit "acme") [] []).1,
   (C1_secret_addresses (happyEnv (lit "P") [] 201 [] []) (lit "acme") [] []).2.2.1⟩


/-- C2: a message with empty `Data` ends in the fatal exit for the empty name
with an empty trace (no client is created and no request of any kind is
issued), whatever the environment; and with non-empty `Data` the run does not
end at the empty-name check and goes on to create the client. -/
theorem C2_empty_name_aborts_first (env : Env) (m : PubSubMessage) :
    (m.Data = [] → Luigi env m = { trace := [], outcome := .fatal .emptyOrgName }) ∧
    (m.Data ≠ [] → (Luigi env m).outcome ≠ .fatal .emptyOrgName ∧
      (Luigi env m).trace.head? = some .NewClient) := by
  refine ⟨Luigi_empty env m, fun h0 => ?_⟩
  refine Luigi_cases env m
    (fun r => r.outcome ≠ .fatal .emptyOrgName ∧ r.trace.head? = some .NewClient)
    ?_ ?_ ?_ ?_ ?_ ?_ ?_ ?_ ?_ ?_
  · intro h; exact absurd h h0
  · intro err _ _; exact ⟨by simp, rfl⟩
  · intro err _ _ _; exact ⟨by simp, rfl⟩
  · intro _ _ _; exact ⟨by simp, rfl⟩
  · intro C err _ _; exact ⟨by simp, rfl⟩
  · intro C u err _ _; exact ⟨by simp, rfl⟩
  · intro C u st err _ _; exact ⟨by simp, rfl⟩
  · intro C u st B site _ hd
    obtain ⟨ds, ht, _⟩ := loopOf_trace env m.Data u C
    refine ⟨?_, by rw [ht]; rfl⟩
    rcases destroyLoop_died_site env _ _ site hd with ⟨e, rfl⟩ | ⟨e, rfl⟩ <;> simp
  · intro C u st B err _ _ _
    obtain ⟨ds, ht, _⟩ := loopOf_trace env m.Data u C
    exact ⟨by simp, by rw [ht]; rfl⟩
  · intro C u st B v _ _ _
    obtain ⟨ds, ht, _⟩ := loopOf_trace env m.Data u C
    exact ⟨by simp, by rw [ht]; rfl⟩

/-- C2 on the empty message and on the message `acme`. -/
theorem C2_empty_name_aborts_first_witness :
    Luigi (happyEnv (lit "P") (lit "ghs_abc123") 201 (lit "AREG-TOKEN-XYZ") threeVersions)
        { Data := [] } = { trace := [], outcome := .fatal .emptyOrgName } ∧
    (Luigi (happyEnv (lit "P") (lit "ghs_abc123") 201 (lit "AREG-TOKEN-XYZ") threeVersions)
        { Data := lit "acme" }).outcome ≠ .fatal .emptyOrgName :=
  ⟨(C2_empty_name_aborts_first _ { Data := [] }).1 rfl,
   ((C2_empty_name_aborts_first _ { Data := lit "acme" }).2 (by decide)).1⟩


/-- C3, refuted as stated: the request does not carry the URL text but the URL
that `http.NewRequest` parses from it.  With Go's parser, for the organization
`a b` the request is built and its URL writes back as
`https://api.github.com/orgs/a%20b/actions/runners/registration-token`, which is
not the text of the claim; for `a?b` the path of the URL is `/orgs/a` and the
rest of the text is the query; for `a`, a line feed, `b` no request is built. -/
theorem C3_exchange_url_counterexample :
    (∃ req,
      registrationRequest
        (happyEnv (lit "P") (lit "ghs_abc123") 201 (lit "AREG-TOKEN-XYZ") threeVersions)
        (lit "ghs_abc123") (lit "a b") = .ok req ∧
      req.URL.Path = lit "/orgs/a b/actions/runners/registration-token" ∧
      req.URL.String =
        lit "https://api.github.com/orgs/a%20b/actions/runners/registration-token" ∧
      req.URL.String ≠ lit "https://api.github.com/orgs/" ++ lit "a b" ++
        lit "/actions/runners/registration-token") ∧
    (∃ req,
      registrationRequest
        (happyEnv (lit "P") (lit "ghs_abc123") 201 (lit "AREG-TOKEN-XYZ") threeVersions)
        (lit "ghs_abc123") (lit "a?b") = .ok req ∧
      req.URL.Path = lit "/orgs/a" ∧
      req.URL.RawQuery = lit "b/actions/runners/registration-token") ∧
    registrationRequest
        (happyEnv (lit "P") (lit "ghs_abc123") 201 (lit "AREG-TOKEN-XYZ") threeVersions)
        (lit "ghs_abc123") [97, 10, 98] =
      .error { msg := "net/url: invalid control character in URL" } := by
  refine ⟨⟨exchangeRequest
      { Scheme := lit "https", Host := lit "api.github.com",
        Path := lit "/orgs/a b/actions/runners/registration-token",
        RawPath := lit "/orgs/a b/actions/runners/registration-token",
        ForceQuery := false, RawQuery := [], Fragment := [], RawFragment := [] }
      (lit "ghs_abc123"), ?_, ?_, ?_, ?_⟩,
    ⟨exchangeRequest
      { Scheme := lit "https", Host := lit "api.github.com",
        Path := lit "/orgs/a", RawPath := [],
        ForceQuery := false, RawQuery := lit "b/actions/runners/registration-token",
        Fragment := [], RawFragment := [] }
      (lit "ghs_abc123"), ?_, ?_, ?_⟩, ?_⟩
  · decide
  · decide
  · decide
  · decide
  · decide
  · decide
  · decide
  · decide

/-- C3, amended: for every credential `C` and organization `O`,
`requestRegistrationToken` hands `http.NewRequest` the method `POST`, the URL
text `https://api.github.com/orgs/O/actions/runners/registration-token` and no
body; when `http.NewRequest` accepts them, the request that is sent has the
method `POST`, the URL parsed from that text, exactly the headers
`Authorization: token C` and `Accept: application/vnd.github.v3+json`, and no
body; inside `Luigi` the credential is the payload of the admin-token read, byte
for byte; and when `O` is made of letters, digits, `-`, `.`, `_` and `~`, Go's
parser reads the text as the host `api.github.com` with the path
`/orgs/O/actions/runners/registration-token`, and that URL writes back as
exactly the text. -/
theorem C3_exchange_request (env : Env) (C O : GoString) (t : Trace) :
    registrationRequest env C O =
      (match env.NewRequestURL (lit "POST")
        (lit "https://api.github.com/orgs/" ++ O ++ lit "/actions/runners/registration-token") with
      | .error err => .error err
      | .ok u => .ok
          { Method := lit "POST",
            URL := u,
            Header := [(lit "Authorization", [lit "token " ++ C]),
              (lit "Accept", [lit "application/vnd.github.v3+json"])],
            Body := none }) ∧
    (∀ req, registrationRequest env C O = .ok req →
      req.Method = lit "POST" ∧
      env.NewRequestURL (lit "POST")
        (lit "https://api.github.com/orgs/" ++ O ++ lit "/actions/runners/registration-token") =
        .ok req.URL ∧
      req.Header = [(lit "Authorization", [lit "token " ++ C]),
        (lit "Accept", [lit "application/vnd.github.v3+json"])] ∧
      req.Header.Get (lit "Authorization") = lit "token " ++ C ∧
      req.Header.Get (lit "Accept") = lit "application/vnd.github.v3+json" ∧
      req.Body = none ∧
      (requestRegistrationToken env C O t).trace = t ++ [.Do req]) ∧
    (∀ req, O ≠ [] → env.NewClient = none →
      env.AccessSecretVersion [.NewClient] (accessRequest env.projectId O) =
        .ok { Payload := some { Data := C } } →
      registrationRequest env C O = .ok req →
      ∃ rest, (Luigi env { Data := O }).trace =
        [.NewClient, .AccessSecretVersion (accessRequest env.projectId O), .Do req] ++ rest) ∧
    ((∀ c ∈ O, isUnreserved c = true) →
      goParse (lit "https://api.github.com/orgs/" ++ O ++
        lit "/actions/runners/registration-token") =
        .ok { Scheme := lit "https", Host := lit "api.github.com",
              Path := lit "/orgs/" ++ O ++ lit "/actions/runners/registration-token",
              RawPath := [], ForceQuery := false, RawQuery := [], Fragment := [],
              RawFragment := [] } ∧
      (exchangeURL O).String = lit "https://api.github.com/orgs/" ++ O ++
        lit "/actions/runners/registration-token" ∧
      (env.NewRequestURL (lit "POST") (exchangeURLText O) = goParse (exchangeURLText O) →
        registrationRequest env C O = .ok (exchangeRequest (exchangeURL O) C))) := by
  have hinv : ∀ req, registrationRequest env C O = .ok req →
      ∃ u, env.NewRequestURL (lit "POST") (exchangeURLText O) = .ok u ∧
        req = exchangeRequest u C := by
    intro req hreq
    rw [registrationRequest_eq] at hreq
    cases hu : env.NewRequestURL (lit "POST") (exchangeURLText O) with
    | error err => rw [hu] at hreq; cases hreq
    | ok u =>
      rw [hu] at hreq
      exact ⟨u, rfl, by cases hreq; rfl⟩
  refine ⟨registrationRequest_eq env C O, ?_, ?_, ?_⟩
  · intro req hreq
    obtain ⟨u, hu, rfl⟩ := hinv req hreq
    have hk : (lit "Authorization" == lit "Authorization") = true := by decide
    have hk2 : (lit "Authorization" == lit "Accept") = false := by decide
    have hk3 : (lit "Accept" == lit "Accept") = true := by decide
    refine ⟨rfl, hu, rfl, ?_, ?_, rfl, ?_⟩
    · simp [exchangeRequest, Header.Get, List.find?, hk]
    · simp [exchangeRequest, Header.Get, List.find?, hk2, hk3]
    · cases hd : env.Do t (exchangeRequest u C) with
      | error err => rw [request_do_error env C O t _ err hreq hd]; rfl
      | ok resp =>
        obtain ⟨status, rb⟩ := resp
        cases rb with
        | failure err => rw [request_read_error env C O t _ status err hreq hd]; rfl
        | data body => rw [request_ok env C O t _ status body hreq hd]; rfl
  · intro req hO hc ha hreq
    obtain ⟨u, hu, rfl⟩ := hinv req hreq
    rw [accessRequest_eq] at ha ⊢
    have hr : ReadsCredential env { Data := O } C := ⟨hO, hc, ha⟩
    have hb : BuildsRequest env { Data := O } C u := ⟨hr, hu⟩
    cases h4 : env.Do
      [.NewClient, .AccessSecretVersion { Name := adminTokenAddress env.projectId O }]
      (exchangeRequest u C) with
    | error err =>
      rw [Luigi_do_error env { Data := O } C u err hb h4]
      exact ⟨[], by simp [traceUpToDo]⟩
    | ok resp =>
    obtain ⟨status, rb⟩ := resp
    cases rb with
    | failure err =>
      rw [Luigi_read_error env { Data := O } C u status err hb h4]
      exact ⟨[], by simp [traceUpToDo]⟩
    | data B =>
    have hx : ExchangesToken env { Data := O } C u status B := ⟨hb, h4⟩
    obtain ⟨ds, ht, _⟩ := loopOf_trace env O u C
    cases h5 : (loopOf env O u C).died with
    | some site =>
      rw [Luigi_loop_died env { Data := O } C u status B site hx h5]
      exact ⟨.ListSecretVersions { Parent := registrationTokenAddress env.projectId O } :: ds,
        by simp [ht, traceUpToList]⟩
    | none =>
    cases h6 : env.AddSecretVersion (loopOf env O u C).trace
      { Parent := registrationTokenAddress env.projectId O, Payload := { Data := B } } with
    | error err =>
      rw [Luigi_add_error env { Data := O } C u status B err hx h5 h6]
      exact ⟨.ListSecretVersions { Parent := registrationTokenAddress env.projectId O } ::
        (ds ++ [.AddSecretVersion ⟨registrationTokenAddress env.projectId O, ⟨B⟩⟩]),
        by simp [ht, traceUpToList]⟩
    | ok v =>
      rw [Luigi_done env { Data := O } C u status B v hx h5 h6]
      exact ⟨.ListSecretVersions { Parent := registrationTokenAddress env.projectId O } ::
        (ds ++ [.AddSecretVersion ⟨registrationTokenAddress env.projectId O, ⟨B⟩⟩, .Close]),
        by simp [ht, traceUpToList]⟩
  · intro hO
    refine ⟨goParse_plain O hO, exchangeURL_String O hO, fun hp => ?_⟩
    rw [registrationRequest_eq, hp, goParse_plain O hO]

/-- C3 on the scenario of the spec: the request for `acme` carries the admin
payload `ghs_abc123` that was read, and the URL parsed from the documented
text. -/
theorem C3_exchange_request_witness :
    ∃ rest, (Luigi
        (happyEnv (lit "P") (lit "ghs_abc123") 201 (lit "AREG-TOKEN-XYZ") threeVersions)
        { Data := lit "acme" }).trace =
      [.NewClient, .AccessSecretVersion (accessRequest (lit "P") (lit "acme")),
        .Do { Method := lit "POST",
              URL :=
                { Scheme := lit "https", Host := lit "api.github.com",
                  Path := lit "/orgs/acme/actions/runners/registration-token",
                  RawPath := [], ForceQuery := false, RawQuery := [], Fragment := [],
                  RawFragment := [] },
              Header := [(lit "Authorization", [lit "token " ++ lit "ghs_abc123"]),
                (lit "Accept", [lit "application/vnd.github.v3+json"])],
              Body := none }] ++ rest :=
  (C3_exchange_request
    (happyEnv (lit "P") (lit "ghs_abc123") 201 (lit "AREG-TOKEN-XYZ") threeVersions)
    (lit "ghs_abc123") (lit "acme") []).2.2.1 _ (by decide) rfl rfl (by decide)
/-- C4: when the enumeration gives the versions `vs` without failing and no
issued destroy call fails, `destroyOlderVersions` returns, and after the listing
call it issues exactly the destroy calls for the enumerated versions whose state
is not `DESTROYED`, in enumeration order and once per enumerated occurrence;
their number is `N - K`, where `N` versions were enumerated and `K` of them were
`DESTROYED`; and every version in another state is the target of a destroy
call. -/
theorem C4_destroy_calls (env : Env) (O : GoString) (t : Trace) (vs : List SecretVersion)
    (henum : env.ListSecretVersions t (listRequest env.projectId O) = vs.map .version)
    (hdestroy : DestroysSucceed env
      (t ++ [.ListSecretVersions (listRequest env.projectId O)]) vs) :
    destroyOlderVersions env O t =
      .ok (t ++ [.ListSecretVersions (listRequest env.projectId O)] ++
        (vs.filter (fun v => v.State ≠ .DESTROYED)).map
          (fun v => Call.DestroySecretVersion { Name := v.Name })) () ∧
    ((vs.filter (fun v => v.State ≠ .DESTROYED)).map
        (fun v => Call.DestroySecretVersion { Name := v.Name })).length =
      vs.length - vs.countP (fun v => v.State = .DESTROYED) ∧
    (∀ v ∈ vs, v.State ≠ .DESTROYED →
      Call.DestroySecretVersion { Name := v.Name } ∈
        (vs.filter (fun v => v.State ≠ .DESTROYED)).map
          (fun v => Call.DestroySecretVersion { Name := v.Name })) := by
  refine ⟨?_, ?_, ?_⟩
  · have hl := destroyLoop_done env vs _ hdestroy
    have hd : (destroyLoop env (env.ListSecretVersions t (listRequest env.projectId O))
        (t ++ [.ListSecretVersions (listRequest env.projectId O)])).died = none := by
      rw [henum, hl]
    rw [destroyOlderVersions_done env O t hd, henum, hl]
    rfl
  · rw [List.length_map]
    exact length_filter_live vs
  · intro v hv hs
    exact List.mem_map.mpr ⟨v, List.mem_filter.mpr ⟨hv, by simpa using hs⟩, rfl⟩

/-- C4 on three versions of which the second is destroyed: two destroy calls. -/
theorem C4_destroy_calls_witness :
    destroyOlderVersions
        (happyEnv (lit "P") (lit "ghs_abc123") 201 (lit "AREG-TOKEN-XYZ") threeVersions)
        (lit "acme") [] =
      .ok [.ListSecretVersions { Parent := lit "projects/P/secrets/acme-registration-token" },
        .DestroySecretVersion
          { Name := lit "projects/P/secrets/acme-registration-token/versions/1" },
        .DestroySecretVersion
          { Name := lit "projects/P/secrets/acme-registration-token/versions/3" }] () :=
  (C4_destroy_calls
    (happyEnv (lit "P") (lit "ghs_abc123") 201 (lit "AREG-TOKEN-XYZ") threeVersions)
    (lit "acme") [] threeVersions rfl (fun _ _ _ => rfl)).1.trans (by decide)

/-- C5: in every run of `Luigi` that returns, the exchange step sent the request
with the credential that was read, and read some body from a response with some
status code (which the code never looks at), and the run issued exactly one
add-version call, whose payload is that body byte for byte; converting bytes to
a string and back gives the same bytes. -/
theorem C5_payload_verbatim (env : Env) (m : PubSubMessage)
    (h : (Luigi env m).outcome = .returned none) :
    ∃ (C : List UInt8) (u : URL) (status : Nat) (body : List UInt8),
      ExchangesToken env m C u status body ∧
      env.Do
        [.NewClient, .AccessSecretVersion { Name := adminTokenAddress env.projectId m.Data }]
        (exchangeRequest u C) = .ok { StatusCode := status, Body := .data body } ∧
      (Luigi env m).trace.filter Call.isAdd =
        [.AddSecretVersion
          { Parent := registrationTokenAddress env.projectId m.Data,
            Payload := { Data := body } }] ∧
      bytes (string body) = body := by
  obtain ⟨_, C, u, status, B, vs, v, hx, h5, h6, h7⟩ := Luigi_success_inv env m none h
  refine ⟨C, u, status, B, hx, hx.2, ?_, rfl⟩
  rw [Luigi_success env m C u status B vs v hx h5 h6 h7]
  simp [traceUpToList, List.filter_cons, List.filter_append, Call.isAdd,
    destroyCalls_filter_isAdd]

/-- C5 on a `404` response whose body is not valid UTF-8. -/
theorem C5_payload_verbatim_witness :
    ∃ (C : List UInt8) (u : URL) (status : Nat) (body : List UInt8),
      ExchangesToken
        (happyEnv (lit "P") (lit "ghs_abc123") 404 [255, 254, 0, 128] threeVersions)
        { Data := lit "acme" } C u status body ∧
      (happyEnv (lit "P") (lit "ghs_abc123") 404 [255, 254, 0, 128] threeVersions).Do
        [.NewClient, .AccessSecretVersion { Name := adminTokenAddress (lit "P") (lit "acme") }]
        (exchangeRequest u C) = .ok { StatusCode := status, Body := .data body } ∧
      (Luigi (happyEnv (lit "P") (lit "ghs_abc123") 404 [255, 254, 0, 128] threeVersions)
        { Data := lit "acme" }).trace.filter Call.isAdd =
        [.AddSecretVersion
          { Parent := registrationTokenAddress (lit "P") (lit "acme"),
            Payload := { Data := body } }] ∧
      bytes (string body) = body :=
  C5_payload_verbatim
    (happyEnv (lit "P") (lit "ghs_abc123") 404 [255, 254, 0, 128] threeVersions)
    { Data := lit "acme" } (by decide)

/-- C6, refuted as stated: for the non-empty organization name made of `a`, a
line feed and `b`, in an environment in which no external call fails (the client
is set up, and every read, HTTP request, listing, destroy call and add-version
call is answered without error), `Luigi` does not return: `http.NewRequest`
rejects the URL text, the run ends in `log.Fatalf` after the admin-token read,
and no request is sent to the API and nothing is listed, destroyed or added. -/
theorem C6_no_failing_call_counterexample :
    (happyEnv (lit "P") (lit "ghs_abc123") 201 (lit "AREG-TOKEN-XYZ") threeVersions).NewClient =
      none ∧
    (∀ t req,
      (happyEnv (lit "P") (lit "ghs_abc123") 201 (lit "AREG-TOKEN-XYZ")
        threeVersions).AccessSecretVersion t req =
        .ok { Payload := some { Data := lit "ghs_abc123" } }) ∧
    (∀ t req,
      (happyEnv (lit "P") (lit "ghs_abc123") 201 (lit "AREG-TOKEN-XYZ") threeVersions).Do t req =
        .ok { StatusCode := 201, Body := .data (lit "AREG-TOKEN-XYZ") }) ∧
    (∀ t req,
      (happyEnv (lit "P") (lit "ghs_abc123") 201 (lit "AREG-TOKEN-XYZ")
        threeVersions).ListSecretVersions t req = threeVersions.map .version) ∧
    (∀ t req,
      (happyEnv (lit "P") (lit "ghs_abc123") 201 (lit "AREG-TOKEN-XYZ")
        threeVersions).DestroySecretVersion t req = none) ∧
    (∀ t req, ∃ v,
      (happyEnv (lit "P") (lit "ghs_abc123") 201 (lit "AREG-TOKEN-XYZ")
        threeVersions).AddSecretVersion t req = .ok v) ∧
    ([97, 10, 98] : GoString) ≠ [] ∧
    Luigi (happyEnv (lit "P") (lit "ghs_abc123") 201 (lit "AREG-TOKEN-XYZ") threeVersions)
        { Data := [97, 10, 98] } =
      { trace := [.NewClient,
          .AccessSecretVersion { Name := adminTokenAddress (lit "P") [97, 10, 98] }],
        outcome :=
          .fatal (.createRequest { msg := "net/url: invalid control character in URL" }) } :=
  ⟨rfl, fun _ _ => rfl, fun _ _ => rfl, fun _ _ => rfl, fun _ _ => rfl,
    fun _ _ => ⟨_, rfl⟩, by decide, by decide⟩

/-- C6, amended: for a non-empty organization `O`, when the client is set up,
the admin-token read gives `C`, `http.NewRequest` accepts the URL text of the
endpoint of `O` and parses it as `u`, the request is answered with body `B`, the
enumeration gives the versions `vs` and no destroy or add call fails, `Luigi`
returns `nil` and its trace is: the client setup; one access of
`projects/P/secrets/O-admin-token/versions/latest`; one `POST` to the URL `u`
with `Authorization: token C`; one listing of
`projects/P/secrets/O-registration-token`; the destroy calls for the
non-`DESTROYED` versions of `vs` in order; one add-version on the same secret
with payload `B`; the deferred close of the client.  The requests to the two
services are exactly the ones of the claim.  When `O` is made of letters,
digits, `-`, `.`, `_` and `~` and `http.NewRequest` parses as Go does, `u` is the
endpoint `https://api.github.com/orgs/O/actions/runners/registration-token`. -/
theorem C6_complete_trace (env : Env) (O : GoString) (C : List UInt8) (u : URL) (status : Nat)
    (B : List UInt8) (vs : List SecretVersion) (v : SecretVersion)
    (hO : O ≠ []) (hclient : env.NewClient = none)
    (haccess : env.AccessSecretVersion [.NewClient]
      { Name := adminTokenAddress env.projectId O } = .ok { Payload := some { Data := C } })
    (hnew : env.NewRequestURL (lit "POST")
      (lit "https://api.github.com/orgs/" ++ O ++ lit "/actions/runners/registration-token") =
      .ok u)
    (hdo : env.Do [.NewClient, .AccessSecretVersion { Name := adminTokenAddress env.projectId O }]
      (exchangeRequest u C) = .ok { StatusCode := status, Body := .data B })
    (hlist : env.ListSecretVersions
      [.NewClient, .AccessSecretVersion { Name := adminTokenAddress env.projectId O },
        .Do (exchangeRequest u C)]
      { Parent := registrationTokenAddress env.projectId O } = vs.map .version)
    (hdestroy : DestroysSucceed env (traceUpToList env.projectId O u C) vs)
    (hadd : env.AddSecretVersion (traceUpToList env.projectId O u C ++ destroyCalls vs)
      { Parent := registrationTokenAddress env.projectId O,
        Payload := { Data := B } } = .ok v) :
    Luigi env { Data := O } =
      { trace :=
          [.NewClient,
            .AccessSecretVersion { Name := adminTokenAddress env.projectId O },
            .Do (exchangeRequest u C),
            .ListSecretVersions { Parent := registrationTokenAddress env.projectId O }] ++
          (vs.filter (fun v => v.State ≠ .DESTROYED)).map
            (fun v => Call.DestroySecretVersion { Name := v.Name }) ++
          [.AddSecretVersion ⟨registrationTokenAddress env.projectId O, ⟨B⟩⟩, .Close],
        outcome := .returned none } ∧
    remoteCalls (Luigi env { Data := O }).trace =
      [.AccessSecretVersion { Name := adminTokenAddress env.projectId O },
        .Do (exchangeRequest u C),
        .ListSecretVersions { Parent := registrationTokenAddress env.projectId O }] ++
      (vs.filter (fun v => v.State ≠ .DESTROYED)).map
        (fun v => Call.DestroySecretVersion { Name := v.Name }) ++
      [.AddSecretVersion ⟨registrationTokenAddress env.projectId O, ⟨B⟩⟩] ∧
    ((∀ c ∈ O, isUnreserved c = true) →
      env.NewRequestURL (lit "POST") (exchangeURLText O) = goParse (exchangeURLText O) →
      u = exchangeURL O ∧
      u.String = lit "https://api.github.com/orgs/" ++ O ++
        lit "/actions/runners/registration-token") := by
  have hx : ExchangesToken env { Data := O } C u status B := ⟨⟨⟨hO, hclient, haccess⟩, hnew⟩, hdo⟩
  have hrun := Luigi_success env { Data := O } C u status B vs v hx hlist hdestroy hadd
  refine ⟨hrun, ?_, ?_⟩
  · rw [hrun]
    show remoteCalls (traceUpToList env.projectId O u C ++ destroyCalls vs ++ _) =
      _ ++ destroyCalls vs ++ _
    simp only [remoteCalls, List.filter_append, destroyCalls_filter_isRemote]
    rfl
  · intro hU hp
    have hu : u = exchangeURL O := by
      have h1 : env.NewRequestURL (lit "POST") (exchangeURLText O) = .ok u := hnew
      rw [hp, goParse_plain O hU] at h1
      cases h1
      rfl
    exact ⟨hu, by rw [hu]; exact exchangeURL_String O hU⟩

/-- C6, amended, on the scenario of the spec: organization `acme`, admin payload
`ghs_abc123`, response body `AREG-TOKEN-XYZ`, versions 1 and 3 enabled and
version 2 destroyed. -/
theorem C6_complete_trace_witness :
    Luigi (happyEnv (lit "P") (lit "ghs_abc123") 201 (lit "AREG-TOKEN-XYZ") threeVersions)
        { Data := lit "acme" } =
      { trace :=
          [.NewClient,
            .AccessSecretVersion
              { Name := lit "projects/P/secrets/acme-admin-token/versions/latest" },
            .Do { Method := lit "POST",
                  URL :=
                    { Scheme := lit "https", Host := lit "api.github.com",
                      Path := lit "/orgs/acme/actions/runners/registration-token",
                      RawPath := [], ForceQuery := false, RawQuery := [], Fragment := [],
                      RawFragment := [] },
                  Header := [(lit "Authorization", [lit "token ghs_abc123"]),
                    (lit "Accept", [lit "application/vnd.github.v3+json"])],
                  Body := none },
            .ListSecretVersions { Parent := lit "projects/P/secrets/acme-registration-token" },
            .DestroySecretVersion
              { Name := lit "projects/P/secrets/acme-registration-token/versions/1" },
            .DestroySecretVersion
              { Name := lit "projects/P/secrets/acme-registration-token/versions/3" },
            .AddSecretVersion ⟨lit "projects/P/secrets/acme-registration-token",
              ⟨lit "AREG-TOKEN-XYZ"⟩⟩,
            .Close],
        outcome := .returned none } :=
  (C6_complete_trace
    (happyEnv (lit "P") (lit "ghs_abc123") 201 (lit "AREG-TOKEN-XYZ") threeVersions)
    (lit "acme") (lit "ghs_abc123") (exchangeURL (lit "acme")) 201 (lit "AREG-TOKEN-XYZ")
    threeVersions
    { Name := registrationTokenAddress (lit "P") (lit "acme") ++ lit "/versions/new",
      State := .ENABLED }
    (by decide) rfl rfl (by decide) rfl rfl (fun _ _ _ => rfl) rfl).1.trans (by decide)

/-- C7: `Luigi` returns `nil` exactly when all steps succeed (non-empty name,
client setup, admin-token read answered with a payload, request built and
answered and its body read, every enumeration step, every issued destroy call,
add-version), and it never returns a non-nil error.  When a step fails, the run
is the one that stops at that step, whatever the environment would answer to
later calls: an empty name gives the empty trace; a failed client setup, only
the setup; a failed read, the setup and the read and no HTTP request; a read
answered without payload, a panic after the read, with the deferred close and
no HTTP request; a URL text that `http.NewRequest` rejects, the setup and the
read; a failed request or body read, no call after the request, so nothing is
listed or destroyed; a failed enumeration step or destroy call at element `i`,
only destroy calls after the listing (those for the versions before `i`, and the
failing attempt) and no add-version call; a failed add-version call, that call
as the last one.  Every failure but the panic ends in `log.Fatalf`. -/
theorem C7_all_or_nothing (env : Env) (m : PubSubMessage) :
    ((Luigi env m).outcome = .returned none ↔ AllStepsSucceed env m) ∧
    (∀ err, (Luigi env m).outcome ≠ .returned (some err)) ∧
    (m.Data = [] → Luigi env m = { trace := [], outcome := .fatal .emptyOrgName }) ∧
    (∀ err, m.Data ≠ [] → env.NewClient = some err →
      Luigi env m = { trace := [.NewClient], outcome := .fatal (.setupClient err) }) ∧
    (∀ err, m.Data ≠ [] → env.NewClient = none →
      env.AccessSecretVersion [.NewClient]
        { Name := adminTokenAddress env.projectId m.Data } = .error err →
      Luigi env m =
        { trace := [.NewClient,
            .AccessSecretVersion { Name := adminTokenAddress env.projectId m.Data }],
          outcome := .fatal (.accessSecretVersion err) }) ∧
    (m.Data ≠ [] → env.NewClient = none →
      env.AccessSecretVersion [.NewClient]
        { Name := adminTokenAddress env.projectId m.Data } = .ok { Payload := none } →
      Luigi env m =
        { trace := [.NewClient,
            .AccessSecretVersion { Name := adminTokenAddress env.projectId m.Data }, .Close],
          outcome := .panicked }) ∧
    (∀ C err, ReadsCredential env m C →
      env.NewRequestURL (lit "POST") (exchangeURLText m.Data) = .error err →
      Luigi env m =
        { trace := [.NewClient,
            .AccessSecretVersion { Name := adminTokenAddress env.projectId m.Data }],
          outcome := .fatal (.createRequest err) }) ∧
    (∀ C u err, BuildsRequest env m C u →
      env.Do
        [.NewClient, .AccessSecretVersion { Name := adminTokenAddress env.projectId m.Data }]
        (exchangeRequest u C) = .error err →
      Luigi env m =
        { trace := [.NewClient,
            .AccessSecretVersion { Name := adminTokenAddress env.projectId m.Data },
            .Do (exchangeRequest u C)],
          outcome := .fatal (.requestRegistrationToken err) }) ∧
    (∀ C u status err, BuildsRequest env m C u →
      env.Do
        [.NewClient, .AccessSecretVersion { Name := adminTokenAddress env.projectId m.Data }]
        (exchangeRequest u C) = .ok { StatusCode := status, Body := .failure err } →
      Luigi env m =
        { trace := [.NewClient,
            .AccessSecretVersion { Name := adminTokenAddress env.projectId m.Data },
            .Do (exchangeRequest u C)],
          outcome := .fatal (.readBody err) }) ∧
    (∀ C u status B (L : List NextResult) (i : Nat) (hi : i < L.length)
        (vs : List SecretVersion) err,
      ExchangesToken env m C u status B →
      env.ListSecretVersions (traceUpToDo env.projectId m.Data u C)
        { Parent := registrationTokenAddress env.projectId m.Data } = L →
      L.take i = vs.map .version →
      DestroysSucceed env (traceUpToList env.projectId m.Data u C) vs →
      L[i] = .failure err →
      Luigi env m =
        { trace :=
            [.NewClient,
              .AccessSecretVersion { Name := adminTokenAddress env.projectId m.Data },
              .Do (exchangeRequest u C),
              .ListSecretVersions { Parent := registrationTokenAddress env.projectId m.Data }] ++
            (vs.filter (fun v => v.State ≠ .DESTROYED)).map
              (fun v => Call.DestroySecretVersion { Name := v.Name }),
          outcome := .fatal (.listSecretVersions err) } ∧
      ∀ c ∈ (Luigi env m).trace, c.isAdd = false) ∧
    (∀ C u status B (L : List NextResult) (i : Nat) (hi : i < L.length)
        (vs : List SecretVersion) (v : SecretVersion) err,
      ExchangesToken env m C u status B →
      env.ListSecretVersions (traceUpToDo env.projectId m.Data u C)
        { Parent := registrationTokenAddress env.projectId m.Data } = L →
      L.take i = vs.map .version →
      DestroysSucceed env (traceUpToList env.projectId m.Data u C) vs →
      L[i] = .version v → v.State ≠ .DESTROYED →
      env.DestroySecretVersion (traceUpToList env.projectId m.Data u C ++ destroyCalls vs)
        { Name := v.Name } = some err →
      Luigi env m =
        { trace :=
            [.NewClient,
              .AccessSecretVersion { Name := adminTokenAddress env.projectId m.Data },
              .Do (exchangeRequest u C),
              .ListSecretVersions { Parent := registrationTokenAddress env.projectId m.Data }] ++
            (vs.filter (fun v => v.State ≠ .DESTROYED)).map
              (fun v => Call.DestroySecretVersion { Name := v.Name }) ++
            [.DestroySecretVersion { Name := v.Name }],
          outcome := .fatal (.destroySecretVersion err) } ∧
      ∀ c ∈ (Luigi env m).trace, c.isAdd = false) ∧
    (∀ C u status B (vs : List SecretVersion) err,
      ExchangesToken env m C u status B →
      env.ListSecretVersions (traceUpToDo env.projectId m.Data u C)
        { Parent := registrationTokenAddress env.projectId m.Data } = vs.map .version →
      DestroysSucceed env (traceUpToList env.projectId m.Data u C) vs →
      env.AddSecretVersion (traceUpToList env.projectId m.Data u C ++ destroyCalls vs)
        { Parent := registrationTokenAddress env.projectId m.Data,
          Payload := { Data := B } } = .error err →
      Luigi env m =
        { trace :=
            [.NewClient,
              .AccessSecretVersion { Name := adminTokenAddress env.projectId m.Data },
              .Do (exchangeRequest u C),
              .ListSecretVersions { Parent := registrationTokenAddress env.projectId m.Data }] ++
            (vs.filter (fun v => v.State ≠ .DESTROYED)).map
              (fun v => Call.DestroySecretVersion { Name := v.Name }) ++
            [.AddSecretVersion ⟨registrationTokenAddress env.projectId m.Data, ⟨B⟩⟩],
          outcome := .fatal (.addSecretVersion err) }) := by
  refine ⟨⟨fun h => (Luigi_success_inv env m none h).2, ?_⟩, ?_, Luigi_empty env m,
    fun err => Luigi_setup_error env m err, fun err => Luigi_access_error env m err,
    Luigi_access_panic env m, fun C err => Luigi_create_error env m C err,
    fun C u err => Luigi_do_error env m C u err,
    fun C u status err => Luigi_read_error env m C u status err, ?_, ?_, ?_⟩
  · rintro ⟨C, u, status, B, vs, v, hx, h5, h6, h7⟩
    rw [Luigi_success env m C u status B vs v hx h5 h6 h7]
  · intro err h
    have := (Luigi_success_inv env m (some err) h).1
    cases this
  · intro C u status B L i hi vs err hx hlist hbefore hd he
    have hl : loopOf env m.Data u C =
        { trace := traceUpToList env.projectId m.Data u C ++ destroyCalls vs,
          rest := L.drop (i + 1), died := some (.listSecretVersions err) } := by
      unfold loopOf
      rw [hlist]
      exact destroyLoop_enum_fails env L _ i hi vs err hbefore hd he
    have h := Luigi_loop_died env m C u status B (.listSecretVersions err) hx (by rw [hl])
    rw [hl] at h
    refine ⟨h, ?_⟩
    rw [h]
    intro c hc
    rcases List.mem_append.mp hc with hc | hc
    · exact traceUpToList_no_add _ _ _ _ c hc
    · exact destroyCalls_no_add vs c hc
  · intro C u status B L i hi vs v err hx hlist hbefore hd hv hs hf
    have hl : loopOf env m.Data u C =
        { trace := traceUpToList env.projectId m.Data u C ++ destroyCalls vs ++
            [.DestroySecretVersion { Name := v.Name }],
          rest := L.drop (i + 1), died := some (.destroySecretVersion err) } := by
      unfold loopOf
      rw [hlist]
      exact destroyLoop_destroy_fails env L _ i hi vs v err hbefore hd hv hs hf
    have h := Luigi_loop_died env m C u status B (.destroySecretVersion err) hx (by rw [hl])
    rw [hl] at h
    refine ⟨h, ?_⟩
    rw [h]
    intro c hc
    rcases List.mem_append.mp hc with hc | hc
    · rcases List.mem_append.mp hc with hc | hc
      · exact traceUpToList_no_add _ _ _ _ c hc
      · exact destroyCalls_no_add vs c hc
    · rw [List.mem_singleton.mp hc]
      rfl
  · intro C u status B vs err hx hlist hd hadd
    have hl := loopOf_done env m.Data u C vs hlist hd
    have h := Luigi_add_error env m C u status B err hx (by rw [hl]) (by rw [hl]; exact hadd)
    rw [hl] at h
    exact h

/-- C7 on the scenario of the spec, where the run returns and all steps succeed,
and on the same scenario with the admin-token read answered without payload,
where the run panics after the read and only the deferred close follows. -/
theorem C7_all_or_nothing_witness :
    AllStepsSucceed
      (happyEnv (lit "P") (lit "ghs_abc123") 201 (lit "AREG-TOKEN-XYZ") threeVersions)
      { Data := lit "acme" } ∧
    Luigi (noPayloadEnv (lit "P") 201 (lit "AREG-TOKEN-XYZ") threeVersions)
        { Data := lit "acme" } =
      { trace := [.NewClient,
          .AccessSecretVersion
            { Name := lit "projects/P/secrets/acme-admin-token/versions/latest" },
          .Close],
        outcome := .panicked } :=
  ⟨(C7_all_or_nothing
      (happyEnv (lit "P") (lit "ghs_abc123") 201 (lit "AREG-TOKEN-XYZ") threeVersions)
      { Data := lit "acme" }).1.mp (by decide),
    ((C7_all_or_nothing (noPayloadEnv (lit "P") 201 (lit "AREG-TOKEN-XYZ") threeVersions)
      { Data := lit "acme" }).2.2.2.2.2.1 (by decide) rfl rfl).trans (by decide)⟩

/-- C8: let the enumeration be `L` and let the first failure of
`destroyOlderVersions` occur at element `i`: the elements before `i` are the
versions `vs` and their destroy calls succeed, and either the enumeration fails
at `i` or `L[i]` is a non-`DESTROYED` version whose destroy call fails.  Then the
function dies; after the listing call it has issued exactly the destroy calls
for the non-`DESTROYED` versions among `vs`, in order, followed in the second
case by the failing destroy attempt on `L[i]`, and nothing else; and the
elements after `i` are never pulled from the iterator. -/
theorem C8_first_failure (env : Env) (O : GoString) (t : Trace) (L : List NextResult)
    (i : Nat) (hi : i < L.length) (vs : List SecretVersion)
    (henum : env.ListSecretVersions t (listRequest env.projectId O) = L)
    (hbefore : L.take i = vs.map .version)
    (hdestroy : DestroysSucceed env
      (t ++ [.ListSecretVersions (listRequest env.projectId O)]) vs)
    (hfail : (∃ err, L[i] = .failure err) ∨
      (∃ v err, L[i] = .version v ∧ v.State ≠ .DESTROYED ∧
        env.DestroySecretVersion
          (t ++ [.ListSecretVersions (listRequest env.projectId O)] ++ destroyCalls vs)
          { Name := v.Name } = some err)) :
    (destroyLoop env L (t ++ [.ListSecretVersions (listRequest env.projectId O)])).rest =
      L.drop (i + 1) ∧
    (∀ err, L[i] = .failure err →
      destroyOlderVersions env O t =
        .fatal (t ++ [.ListSecretVersions (listRequest env.projectId O)] ++
          (vs.filter (fun v => v.State ≠ .DESTROYED)).map
            (fun v => Call.DestroySecretVersion { Name := v.Name }))
          (.listSecretVersions err)) ∧
    (∀ v, L[i] = .version v → ∃ err,
      env.DestroySecretVersion
          (t ++ [.ListSecretVersions (listRequest env.projectId O)] ++ destroyCalls vs)
          { Name := v.Name } = some err ∧
      destroyOlderVersions env O t =
        .fatal (t ++ [.ListSecretVersions (listRequest env.projectId O)] ++
          (vs.filter (fun v => v.State ≠ .DESTROYED)).map
            (fun v => Call.DestroySecretVersion { Name := v.Name }) ++
          [.DestroySecretVersion { Name := v.Name }])
          (.destroySecretVersion err)) := by
  have hL : L = vs.map .version ++ L[i] :: L.drop (i + 1) := by
    rw [← hbefore, ← List.drop_eq_getElem_cons hi, List.take_append_drop]
  have hrun : destroyLoop env L (t ++ [.ListSecretVersions (listRequest env.projectId O)]) =
      destroyLoop env (L[i] :: L.drop (i + 1))
        (t ++ [.ListSecretVersions (listRequest env.projectId O)] ++ destroyCalls vs) := by
    conv_lhs => rw [hL]
    exact destroyLoop_versions env vs _ _ hdestroy
  rcases hfail with ⟨err, he⟩ | ⟨v, err, hv, hs, hd⟩
  · have hend : destroyLoop env L (t ++ [.ListSecretVersions (listRequest env.projectId O)]) =
        { trace := t ++ [.ListSecretVersions (listRequest env.projectId O)] ++ destroyCalls vs,
          rest := L.drop (i + 1), died := some (.listSecretVersions err) } := by
      rw [hrun, he]
      rfl
    refine ⟨by rw [hend], ?_, ?_⟩
    · intro err2 he2
      rw [he] at he2
      cases he2
      have hdied : (destroyLoop env (env.ListSecretVersions t (listRequest env.projectId O))
          (t ++ [.ListSecretVersions (listRequest env.projectId O)])).died =
          some (.listSecretVersions err) := by rw [henum, hend]
      rw [destroyOlderVersions_died env O t _ hdied, henum, hend]
      rfl
    · intro v hv
      rw [he] at hv
      cases hv
  · have hend : destroyLoop env L (t ++ [.ListSecretVersions (listRequest env.projectId O)]) =
        { trace := t ++ [.ListSecretVersions (listRequest env.projectId O)] ++
            destroyCalls vs ++ [.DestroySecretVersion { Name := v.Name }],
          rest := L.drop (i + 1), died := some (.destroySecretVersion err) } := by
      rw [hrun, hv]
      simp only [destroyLoop, ne_eq, hs, not_false_eq_true, if_true, hd]
    refine ⟨by rw [hend], ?_, ?_⟩
    · intro err2 he2
      rw [hv] at he2
      cases he2
    · intro v2 hv2
      rw [hv] at hv2
      cases hv2
      have hdied : (destroyLoop env (env.ListSecretVersions t (listRequest env.projectId O))
          (t ++ [.ListSecretVersions (listRequest env.projectId O)])).died =
          some (.destroySecretVersion err) := by rw [henum, hend]
      refine ⟨err, hd, ?_⟩
      rw [destroyOlderVersions_died env O t _ hdied, henum, hend]
      rfl

/-- C8 on four enumerated versions where the second destroy call, the one for
the third version, fails: versions 1 and 3 are the only targets, and version 4
is never pulled. -/
theorem C8_first_failure_witness :
    (destroyLoop (destroyFailsEnv (lit "P") [] 201 [] fourResults 1) fourResults
        ([] ++ [.ListSecretVersions (listRequest (lit "P") (lit "acme"))])).rest =
      fourResults.drop (2 + 1) ∧
    ∃ err, destroyOlderVersions (destroyFailsEnv (lit "P") [] 201 [] fourResults 1)
        (lit "acme") [] =
      .fatal ([] ++ [.ListSecretVersions (listRequest (lit "P") (lit "acme"))] ++
          ((threeVersions.take 2).filter (fun v => v.State ≠ .DESTROYED)).map
            (fun v => Call.DestroySecretVersion { Name := v.Name }) ++
          [.DestroySecretVersion
            { Name := lit "projects/P/secrets/acme-registration-token/versions/3" }])
        (.destroySecretVersion err) :=
  have h := C8_first_failure (destroyFailsEnv (lit "P") [] 201 [] fourResults 1)
    (lit "acme") [] fourResults 2 (by decide) (threeVersions.take 2) rfl rfl
    (by unfold DestroysSucceed; decide)
    (Or.inr ⟨{ Name := lit "projects/P/secrets/acme-registration-token/versions/3",
               State := .ENABLED }, { msg := "unavailable" }, rfl, by decide, by decide⟩)
  ⟨h.1, (h.2.2 _ rfl).imp (fun _ he => he.2)⟩

/-- C9: take a store and an environment that lists it, and a run of `Luigi` that
returns.  The store after the run is the versions it held before, in place
(same addresses, secrets and payloads) and with every version of the
registration-token secret in state `DESTROYED`, followed by exactly one new
version.  The new version is the latest, it is enabled, it carries the body that
the exchange step of this run read, and it is the only version of the secret
that is not `DESTROYED`; the add-version call is the last request of the run, so
no destroy call follows it. -/
theorem C9_rotation_invariant (env : Env) (m : PubSubMessage) (s0 : Store)
    (hstore : ListsStore env s0) (hok : (Luigi env m).outcome = .returned none) :
    ∃ (C : List UInt8) (u : URL) (status : Nat) (B : List UInt8) (old : Store)
      (new : StoredVersion) (pre : Trace),
      ExchangesToken env m C u status B ∧
      env.Do
        [.NewClient, .AccessSecretVersion { Name := adminTokenAddress env.projectId m.Data }]
        (exchangeRequest u C) = .ok { StatusCode := status, Body := .data B } ∧
      s0.replay (Luigi env m).trace = old ++ [new] ∧
      old.map (fun w => w.Name) = s0.map (fun w => w.Name) ∧
      old.map (fun w => w.Secret) = s0.map (fun w => w.Secret) ∧
      old.map (fun w => w.Payload) = s0.map (fun w => w.Payload) ∧
      (∀ w ∈ old,
        w.Secret = registrationTokenAddress env.projectId m.Data → w.State = .DESTROYED) ∧
      new.Secret = registrationTokenAddress env.projectId m.Data ∧
      new.State = .ENABLED ∧ new.Payload = B ∧
      (s0.replay (Luigi env m).trace).getLast? = some new ∧
      (∀ w ∈ s0.replay (Luigi env m).trace,
        w.Secret = registrationTokenAddress env.projectId m.Data →
        w.State ≠ .DESTROYED → w = new) ∧
      (Luigi env m).trace = pre ++
        [.AddSecretVersion ⟨registrationTokenAddress env.projectId m.Data, ⟨B⟩⟩, .Close] ∧
      (∀ c ∈ pre, c.isAdd = false ∧ c ≠ .Close) := by
  obtain ⟨C, u, status, B, names, new, pre, hx, htrace, hpre, hfinal, hold, h1, h2, h3⟩ :=
    rotate_store env m s0 hstore hok
  refine ⟨C, u, status, B, s0.destroyAll names, new, pre, hx, hx.2, hfinal,
    destroyAll_map_Name s0 names, destroyAll_map_Secret s0 names,
    destroyAll_map_Payload s0 names, hold, h1, h2, h3, ?_, ?_, htrace, hpre⟩
  · rw [hfinal]
    simp
  · intro w hw hsec hlive
    rw [hfinal] at hw
    rcases List.mem_append.mp hw with hw | hw
    · exact absurd (hold w hw hsec) hlive
    · simpa using hw

/-- C9 on the store `twoStored`, rotated to `TOKEN-2` by a run without failures. -/
theorem C9_rotation_invariant_witness :
    ∃ (C : List UInt8) (u : URL) (status : Nat) (B : List UInt8) (old : Store)
      (new : StoredVersion) (pre : Trace),
      ExchangesToken
        (storeEnv (lit "P") twoStored (lit "ghs_abc123") 201 (lit "TOKEN-2") none false)
        { Data := lit "acme" } C u status B ∧
      (storeEnv (lit "P") twoStored (lit "ghs_abc123") 201 (lit "TOKEN-2") none false).Do
        [.NewClient, .AccessSecretVersion { Name := adminTokenAddress (lit "P") (lit "acme") }]
        (exchangeRequest u C) = .ok { StatusCode := status, Body := .data B } ∧
      twoStored.replay (retryOn twoStored).trace = old ++ [new] ∧
      old.map (fun w => w.Name) = twoStored.map (fun w => w.Name) ∧
      old.map (fun w => w.Secret) = twoStored.map (fun w => w.Secret) ∧
      old.map (fun w => w.Payload) = twoStored.map (fun w => w.Payload) ∧
      (∀ w ∈ old,
        w.Secret = registrationTokenAddress (lit "P") (lit "acme") → w.State = .DESTROYED) ∧
      new.Secret = registrationTokenAddress (lit "P") (lit "acme") ∧
      new.State = .ENABLED ∧ new.Payload = B ∧
      (twoStored.replay (retryOn twoStored).trace).getLast? = some new ∧
      (∀ w ∈ twoStored.replay (retryOn twoStored).trace,
        w.Secret = registrationTokenAddress (lit "P") (lit "acme") →
        w.State ≠ .DESTROYED → w = new) ∧
      (retryOn twoStored).trace = pre ++
        [.AddSecretVersion ⟨registrationTokenAddress (lit "P") (lit "acme"), ⟨B⟩⟩, .Close] ∧
      (∀ c ∈ pre, c.isAdd = false ∧ c ≠ .Close) :=
  C9_rotation_invariant
    (storeEnv (lit "P") twoStored (lit "ghs_abc123") 201 (lit "TOKEN-2") none false)
    { Data := lit "acme" } twoStored (storeEnv_lists _ _ _ _ _ _ _) (by decide)

/-- C10, refuted as stated: on the store `twoStored` an invocation aborts after
some destroy calls, once in the destroy loop (the first destroy succeeded, the
second failed) and once at the add-version call (both destroys succeeded).  In
both the failing call is the last of the trace; take the store on which it had
no effect, which is partially rotated.  A retry without failures brings either
store to `rotatedStore`, which is exactly the store a single successful run on
`twoStored` produces: both prior versions `DESTROYED` and one new enabled
version with the token.  (When the failing add-version call did take effect, the
retry destroys the version it added as well, and the store ends with that one
extra `DESTROYED` version before the new one.) -/
theorem C10_retry_corrects_counterexample :
    abortedInLoop.outcome = .fatal (.destroySecretVersion { msg := "unavailable" }) ∧
    abortedInLoop.trace.getLast? = some (.DestroySecretVersion
      { Name := lit "projects/P/secrets/acme-registration-token/versions/2" }) ∧
    (twoStored.replay abortedInLoop.trace.dropLast).map (fun w => w.State) =
      [.DESTROYED, .ENABLED] ∧
    (retryOn (twoStored.replay abortedInLoop.trace.dropLast)).outcome = .returned none ∧
    (twoStored.replay abortedInLoop.trace.dropLast).replay
      (retryOn (twoStored.replay abortedInLoop.trace.dropLast)).trace = rotatedStore ∧
    abortedAtAdd.outcome = .fatal (.addSecretVersion { msg := "unavailable" }) ∧
    abortedAtAdd.trace.getLast? = some (.AddSecretVersion
      ⟨lit "projects/P/secrets/acme-registration-token", ⟨lit "TOKEN-1"⟩⟩) ∧
    (twoStored.replay abortedAtAdd.trace.dropLast).map (fun w => w.State) =
      [.DESTROYED, .DESTROYED] ∧
    (retryOn (twoStored.replay abortedAtAdd.trace.dropLast)).outcome = .returned none ∧
    (twoStored.replay abortedAtAdd.trace.dropLast).replay
      (retryOn (twoStored.replay abortedAtAdd.trace.dropLast)).trace = rotatedStore ∧
    (retryOn twoStored).outcome = .returned none ∧
    twoStored.replay (retryOn twoStored).trace = rotatedStore ∧
    ((twoStored.replay abortedAtAdd.trace).replay
        (retryOn (twoStored.replay abortedAtAdd.trace)).trace).map
        (fun w => (w.State, w.Payload)) =
      [(.DESTROYED, lit "OLD-1"), (.DESTROYED, lit "OLD-2"), (.DESTROYED, lit "TOKEN-1"),
        (.ENABLED, lit "TOKEN-2")] := by
  decide

/-- C10, amended: let an invocation abort in the destroy loop or at the
add-version call, and let `applied` be the calls of it that took effect on the
store: all calls of its trace, or (when a destroy or add-version call failed)
all but the failing last call.  Let a retry that returns run on the store so
left, in an environment that lists that store.  After the retry the store is the
versions it held before the aborted invocation, in place and with every version
of the registration-token secret `DESTROYED`; then at most one extra version,
present only when the add-version call of the aborted invocation failed and
still took effect, and `DESTROYED` too when it belongs to the secret; then
exactly one new version: enabled, carrying the body of the exchange step of the
retry, and the only version of the secret that is not `DESTROYED`. -/
theorem C10_retry_reaches_rotated_state (env1 env2 : Env) (m : PubSubMessage) (s0 : Store)
    (applied : Trace)
    (habort : ∃ e, (Luigi env1 m).outcome = .fatal (.listSecretVersions e) ∨
      (Luigi env1 m).outcome = .fatal (.destroySecretVersion e) ∨
      (Luigi env1 m).outcome = .fatal (.addSecretVersion e))
    (hleft : applied = (Luigi env1 m).trace ∨
      ((∃ e, (Luigi env1 m).outcome = .fatal (.destroySecretVersion e) ∨
          (Luigi env1 m).outcome = .fatal (.addSecretVersion e)) ∧
        applied = (Luigi env1 m).trace.dropLast))
    (hstore : ListsStore env2 (s0.replay applied))
    (hok : (Luigi env2 m).outcome = .returned none) :
    ∃ (C : List UInt8) (u : URL) (status : Nat) (B : List UInt8) (old extra : Store)
      (new : StoredVersion),
      ExchangesToken env2 m C u status B ∧
      (s0.replay applied).replay (Luigi env2 m).trace = old ++ extra ++ [new] ∧
      old.map (fun w => w.Name) = s0.map (fun w => w.Name) ∧
      old.map (fun w => w.Secret) = s0.map (fun w => w.Secret) ∧
      old.map (fun w => w.Payload) = s0.map (fun w => w.Payload) ∧
      extra.length ≤ 1 ∧
      (extra ≠ [] →
        (∃ e, (Luigi env1 m).outcome = .fatal (.addSecretVersion e)) ∧
        applied = (Luigi env1 m).trace) ∧
      (∀ w ∈ old ++ extra,
        w.Secret = registrationTokenAddress env2.projectId m.Data → w.State = .DESTROYED) ∧
      new.Secret = registrationTokenAddress env2.projectId m.Data ∧
      new.State = .ENABLED ∧ new.Payload = B ∧
      (∀ w ∈ (s0.replay applied).replay (Luigi env2 m).trace,
        w.Secret = registrationTokenAddress env2.projectId m.Data →
        w.State ≠ .DESTROYED → w = new) := by
  have hs1 : ∃ (dn : List GoString) (ex : Store),
      s0.replay applied = s0.destroyAll dn ++ ex ∧ ex.length ≤ 1 ∧
      (ex ≠ [] → (∃ e, (Luigi env1 m).outcome = .fatal (.addSecretVersion e)) ∧
        applied = (Luigi env1 m).trace) := by
    rcases aborted_trace env1 m habort with hno | ⟨hadd, pre, req, htr, hpre⟩
    · have hno2 : ∀ c ∈ applied, c.isAdd = false := by
        rcases hleft with h | ⟨_, h⟩
        · rw [h]; exact hno
        · rw [h]; exact no_add_dropLast _ hno
      exact ⟨destroyNames applied, [], by rw [List.append_nil]; exact replay_no_add _ _ hno2,
        by simp, fun h => absurd rfl h⟩
    · rcases hleft with h | ⟨_, h⟩
      · refine ⟨destroyNames pre,
          [{ Secret := req.Parent,
             Name := req.Parent ++ lit "/versions/" ++
               lit (toString (((s0.destroyAll (destroyNames pre)).filter
                 (fun w => w.Secret = req.Parent)).length + 1)),
             State := .ENABLED,
             Payload := req.Payload.Data }], ?_, by simp, fun _ => ⟨hadd, h⟩⟩
        rw [h, htr, replay_append, replay_no_add _ _ hpre]
        rfl
      · have hp : applied = pre := by rw [h, htr]; simp
        exact ⟨destroyNames pre, [], by rw [List.append_nil, hp]; exact replay_no_add _ _ hpre,
          by simp, fun h => absurd rfl h⟩
  obtain ⟨dn, ex, hs, hlen, hex⟩ := hs1
  obtain ⟨C, u, status, B, names, new, pre, hx, _, _, hfinal, hold, h1, h2, h3⟩ :=
    rotate_store env2 m _ hstore hok
  rw [hs, destroyAll_append, destroyAll_destroyAll] at hfinal hold
  rw [hs]
  refine ⟨C, u, status, B, s0.destroyAll (dn ++ names), ex.destroyAll names, new, hx, hfinal,
    destroyAll_map_Name s0 _, destroyAll_map_Secret s0 _, destroyAll_map_Payload s0 _, ?_, ?_,
    hold, h1, h2, h3, ?_⟩
  · simpa [Store.destroyAll] using hlen
  · intro hne
    apply hex
    intro h0
    apply hne
    rw [h0]
    rfl
  · intro w hw hsec hlive
    rw [hfinal] at hw
    rcases List.mem_append.mp hw with hw | hw
    · exact absurd (hold w hw hsec) hlive
    · simpa using hw

/-- C10, amended, on the invocation `abortedAtAdd` whose failing add-version
call still took effect, and its retry: the store ends with both old versions
and the version of the aborted invocation `DESTROYED`, and one new version. -/
theorem C10_retry_reaches_rotated_state_witness :
    ∃ (C : List UInt8) (u : URL) (status : Nat) (B : List UInt8) (old extra : Store)
      (new : StoredVersion),
      ExchangesToken
        (storeEnv (lit "P") (twoStored.replay abortedAtAdd.trace) (lit "ghs_abc123") 201
          (lit "TOKEN-2") none false)
        { Data := lit "acme" } C u status B ∧
      (twoStored.replay abortedAtAdd.trace).replay
        (retryOn (twoStored.replay abortedAtAdd.trace)).trace = old ++ extra ++ [new] ∧
      old.map (fun w => w.Name) = twoStored.map (fun w => w.Name) ∧
      old.map (fun w => w.Secret) = twoStored.map (fun w => w.Secret) ∧
      old.map (fun w => w.Payload) = twoStored.map (fun w => w.Payload) ∧
      extra.length ≤ 1 ∧
      (extra ≠ [] →
        (∃ e, abortedAtAdd.outcome = .fatal (.addSecretVersion e)) ∧
        abortedAtAdd.trace = abortedAtAdd.trace) ∧
      (∀ w ∈ old ++ extra,
        w.Secret = registrationTokenAddress (lit "P") (lit "acme") → w.State = .DESTROYED) ∧
      new.Secret = registrationTokenAddress (lit "P") (lit "acme") ∧
      new.State = .ENABLED ∧ new.Payload = B ∧
      (∀ w ∈ (twoStored.replay abortedAtAdd.trace).replay
          (retryOn (twoStored.replay abortedAtAdd.trace)).trace,
        w.Secret = registrationTokenAddress (lit "P") (lit "acme") →
        w.State ≠ .DESTROYED → w = new) :=
  C10_retry_reaches_rotated_state
    (storeEnv (lit "P") twoStored (lit "ghs_abc123") 201 (lit "TOKEN-1") none true)
    (storeEnv (lit "P") (twoStored.replay abortedAtAdd.trace) (lit "ghs_abc123") 201
      (lit "TOKEN-2") none false)
    { Data := lit "acme" } twoStored abortedAtAdd.trace
    ⟨{ msg := "unavailable" }, Or.inr (Or.inr (by decide))⟩
    (Or.inl rfl)
    (storeEnv_lists _ _ _ _ _ _ _) (by decide)

end luigi
